import Mathlib

/-!
Verification development for the AIOps root-cause-analysis agent.

This file gives a shallow embedding of the two modules the claims are
about, `inference_engine.py` (class `LogicalRCA`) and `rate_limiter.py`
(class `GlobalRateLimiter` and helpers), and proves or refutes the frozen
claims about them.

Modelling conventions:
* Python `dict`s are insertion-ordered association lists
  (`List (String × _)`); dict-assignment is `alUpsert` (update in place,
  append when fresh), iteration is list order.
* Python floats (probabilities, confidences, timestamps, the safety
  margin) are modelled as `ℚ`; `time.time()` instants are explicit `now`
  arguments.  Python `int()` truncation toward zero is `pyInt`.
* The text of the LLM prompt is not reconstructed character by character;
  instead the boolean `check_input_limit(prompt)` for a given batch is a
  parameter `promptFits : Batch → Bool`, and the network call
  `model.generate_content` together with `wait_for_slot`'s eventual
  outcome is a parameter `env : ℕ → OracleEvent` indexed by dispatch
  ordinal.  All theorems quantify over these parameters, so they hold for
  every oracle behaviour; counterexamples instantiate them with
  behaviours the real system can exhibit.
* `_sanitize_text` (regex credential redaction) is a parameter
  `sanitize : String → String`; the concrete inputs used in closed
  theorems contain none of the redaction trigger literals
  (encrypted-password / password / secret / username / snmp-server), on
  which the real `_sanitize_text` is the identity.
* The MD5 cache key of the sorted serialized batch is modelled by the
  sorted batch itself (`canonKey`), i.e. hashing is treated as injective.
* `str.lower()` / `str.upper()` are modelled characterwise (`sLower`,
  `sUpper`); all compared literals are ASCII, where this agrees with
  Python.
-/

/-- Substring test: does `hay` contain `needle` as a contiguous substring
(Python's `needle in hay`)? -/
def containsSub (hay needle : String) : Bool :=
  (List.range (hay.data.length + 1)).any (fun i => needle.data.isPrefixOf (hay.data.drop i))

/-- Characterwise lowercase, modelling Python `str.lower()` on ASCII text. -/
def sLower (s : String) : String := ⟨s.data.map Char.toLower⟩

/-- Characterwise uppercase, modelling Python `str.upper()` on ASCII text. -/
def sUpper (s : String) : String := ⟨s.data.map Char.toUpper⟩

/-- Lexicographic comparison of char lists by code point, modelling
Python string `<` (used by `json.dumps(..., sort_keys=True)`). -/
def listLtChar : List Char → List Char → Bool
  | [], [] => false
  | [], _ :: _ => true
  | _ :: _, [] => false
  | a :: as, b :: bs => if a < b then true else if b < a then false else listLtChar as bs

/-- Association-list lookup by key (Python `d[k]` / `d.get(k)`). -/
def alLookup {β : Type} (l : List (String × β)) (k : String) : Option β :=
  (l.find? (fun p => p.1 = k)).map (fun p => p.2)

/-- Key-membership test (Python `k in d`). -/
def alHasKey {β : Type} (l : List (String × β)) (k : String) : Bool :=
  (alLookup l k).isSome

/-- Dict assignment `d[k] = v`: overwrite in place when the key exists
(keeping its position, as Python dicts do), append otherwise. -/
def alUpsert {β : Type} (l : List (String × β)) (k : String) (v : β) : List (String × β) :=
  if alHasKey l k then l.map (fun p => if p.1 = k then (k, v) else p) else l ++ [(k, v)]

/-- Python `d.update(d2)`: upsert every pair of `d2` into `d` in order. -/
def dictUpdate {β : Type} (l l2 : List (String × β)) : List (String × β) :=
  l2.foldl (fun acc p => alUpsert acc p.1 p.2) l

/-- Python `d.setdefault(k, []).append(v)`. -/
def alAppendAt {β : Type} (l : List (String × List β)) (k : String) (v : β) :
    List (String × List β) :=
  if alHasKey l k then l.map (fun p => if p.1 = k then (k, p.2 ++ [v]) else p)
  else l ++ [(k, [v])]

/-- Keys of an association list, in order. -/
def alKeys {β : Type} (l : List (String × β)) : List String := l.map Prod.fst

/-- Batches of at most `MAX_BATCH_SIZE = 5` items:
`for i in range(0, len(items), MAX_BATCH_SIZE): items[i:i+MAX_BATCH_SIZE]`. -/
def chunks5 {α : Type} : List α → List (List α)
  | [] => []
  | [a] => [[a]]
  | [a, b] => [[a, b]]
  | [a, b, c] => [[a, b, c]]
  | [a, b, c, d] => [[a, b, c, d]]
  | a :: b :: c :: d :: e :: rest => [a, b, c, d, e] :: chunks5 rest

/-- Health status enum of `inference_engine.HealthStatus`
(`NORMAL = "GREEN"`, `WARNING = "YELLOW"`, `CRITICAL = "RED"`). -/
inductive HealthStatus
  | NORMAL
  | WARNING
  | CRITICAL
deriving DecidableEq

/-- The `AnalysisResult` dataclass of `inference_engine.py`. -/
structure AnalysisResult where
  device_id : String
  status : HealthStatus
  reason : String
  impact_type : String
  confidence : ℚ := 0
  from_cache : Bool := false
  from_local_rule : Bool := false
deriving DecidableEq

/-- One topology node, as `LogicalRCA` reads it: `parent_id` via
`_get_parent_id_from_info`, and the metadata fields consulted by
`_get_psu_count` (`metadata.hw_inventory.psu_count` when present and
castable to int, otherwise `metadata.redundancy_type`). -/
structure NodeInfo where
  parent_id : Option String := none
  hwPsuCount : Option Int := none
  redundancy_type : String := ""
deriving DecidableEq

/-- The topology dict `device_id → node info`. -/
abbrev Topology := List (String × NodeInfo)

/-- The alarm map `{device_id: [alert messages]}` handed to
`infer_root_cause` and `_analyze_batch_with_llm`. -/
abbrev Batch := List (String × List String)

/-- One parsed element of the oracle's JSON array response; absent dict
keys are `none` (the code supplies the defaults via `.get`). -/
structure OracleItem where
  device_id : Option String := none
  status : Option String := none
  reason : Option String := none
  impact_type : Option String := none
deriving DecidableEq

/-- Outcome of one dispatch attempt in `_analyze_batch_with_llm`'s `try`
block: `timeout` models `wait_for_slot` returning `False` (which the code
turns into a raised and then caught `RuntimeError`), `fail msg` models
`model.generate_content` or the JSON parsing raising with message `msg`,
and `ok items` models a successfully parsed response array. -/
inductive OracleEvent
  | timeout
  | fail (msg : String)
  | ok (items : List OracleItem)
deriving DecidableEq

/-- The `RateLimitConfig` dataclass of `rate_limiter.py` with its
defaults. -/
structure RateLimitConfig where
  rpm : ℕ := 30
  rpd : ℕ := 14400
  input_tokens : ℕ := 128000
  output_tokens : ℕ := 8192
  safety_margin : ℚ := mkRat 8 10
  retry_base_delay : ℚ := 2
  retry_max_delay : ℚ := 60
  cache_ttl : ℚ := 3600
deriving DecidableEq

/-- A stored response-cache entry: `{'value': ..., 'timestamp': ...}`. -/
structure CacheEntry where
  value : List (String × AnalysisResult)
  timestamp : ℚ
deriving DecidableEq

/-- The cache key: the canonical (key-sorted) serialized batch content.
The MD5 digest of `json.dumps(devices_alerts, sort_keys=True)` is
modelled by the sorted payload itself. -/
abbrev CacheKey := Batch

/-- Mutable state of the `GlobalRateLimiter` singleton, plus two ghost
counters (`oracleCalls`, `dispatchCount`) that instrument how often the
external model was invoked and how many dispatch attempts were made;
they influence nothing, they only let theorems count invocations. -/
structure RLState where
  request_times : List ℚ := []
  daily_count : ℕ := 0
  daily_reset : ℚ := 0
  cache : List (CacheKey × CacheEntry) := []
  oracleCalls : ℕ := 0
  dispatchCount : ℕ := 0
deriving DecidableEq

/-- One ranked result dict produced by `infer_root_cause`
(`id / label / prob / type / tier / reason`, plus the two keys only the
silent-failure branch adds). -/
structure RcaEntry where
  id : String
  label : String
  prob : ℚ
  type : String
  tier : ℕ
  reason : String
  analyst_report : Option String := none
  auto_investigation : List String := []
deriving DecidableEq

/-- Value stored in the `suspects` dict of `_detect_silent_failures`. -/
structure SuspectInfo where
  evidence_count : ℕ
  total_children : ℕ
  affected_children : List String
  report : String
deriving DecidableEq

/-- Python `int()` applied to a nonnegative-or-negative rational:
truncation toward zero. -/
def pyInt (q : ℚ) : ℤ := if 0 ≤ q then ⌊q⌋ else -⌊-q⌋

/-- The effective per-minute budget
`int(self.config.rpm * self.config.safety_margin)`. -/
def effMinuteLimit (cfg : RateLimitConfig) : ℤ := pyInt ((cfg.rpm : ℚ) * cfg.safety_margin)

/-- The effective per-day budget
`int(self.config.rpd * self.config.safety_margin)`. -/
def effDailyLimit (cfg : RateLimitConfig) : ℤ := pyInt ((cfg.rpd : ℚ) * cfg.safety_margin)

/-- The popleft loop of `_check_minute_limit`:
`while self._request_times and now - self._request_times[0] > 60: popleft()`. -/
def pruneTimes (now : ℚ) : List ℚ → List ℚ
  | [] => []
  | t :: ts => if now - t > 60 then pruneTimes now ts else t :: ts

/-- `_check_daily_limit`: reset the daily counter if a day has passed,
then compare against the effective daily budget.  Returns the (possibly
reset) state and the boolean verdict. -/
def checkDailyLimit (cfg : RateLimitConfig) (st : RLState) (now : ℚ) : RLState × Bool :=
  let st1 := if now - st.daily_reset > 86400 then
    { st with daily_count := 0, daily_reset := now } else st
  (st1, decide ((st1.daily_count : ℤ) < effDailyLimit cfg))

/-- `_check_minute_limit`: drop window-expired timestamps from the front
of the deque, then compare the remaining count against the effective
per-minute budget. -/
def checkMinuteLimit (cfg : RateLimitConfig) (st : RLState) (now : ℚ) : RLState × Bool :=
  let ts := pruneTimes now st.request_times
  ({ st with request_times := ts }, decide ((ts.length : ℤ) < effMinuteLimit cfg))

/-- One locked check iteration of `wait_for_slot`:
`self._check_daily_limit() and self._check_minute_limit()` with Python's
short-circuit `and`.  `wait_for_slot` returns `True` exactly when such a
check passes at the moment of return. -/
def slotCheck (cfg : RateLimitConfig) (st : RLState) (now : ℚ) : RLState × Bool :=
  let d := checkDailyLimit cfg st now
  if d.2 then checkMinuteLimit cfg d.1 now else (d.1, false)

/-- `record_request`: append the current instant to the deque (whose
`maxlen` is `config.rpm`, so the oldest entry is dropped on overflow) and
increment the daily counter. -/
def recordRequest (cfg : RateLimitConfig) (st : RLState) (now : ℚ) : RLState :=
  let ts := st.request_times ++ [now]
  let ts2 := if cfg.rpm < ts.length then ts.drop (ts.length - cfg.rpm) else ts
  { st with request_times := ts2, daily_count := st.daily_count + 1 }

/-- Number of recorded timestamps inside the rolling 60-second window at
instant `now` (the quantity `_check_minute_limit` effectively bounds). -/
def inWindowCount (times : List ℚ) (now : ℚ) : ℕ :=
  (times.filter (fun t => decide (now - t ≤ 60))).length

/-- One round of the sequential client protocol: call `wait_for_slot` at
instant `t` and, if it grants, immediately `record_request`. -/
def protoStep (cfg : RateLimitConfig) (st : RLState) (t : ℚ) : RLState :=
  let c := slotCheck cfg st t
  if c.2 then recordRequest cfg c.1 t else c.1

/-- Run the sequential wait-then-record protocol at the given instants. -/
def runProto (cfg : RateLimitConfig) : List ℚ → RLState → RLState
  | [], st => st
  | t :: ts, st => runProto cfg ts (protoStep cfg st t)

/-- `_clean_expired_cache`: drop entries strictly older than the TTL. -/
def cleanExpiredCache (cfg : RateLimitConfig) (st : RLState) (now : ℚ) : RLState :=
  { st with cache := st.cache.filter (fun e => !decide (now - e.2.timestamp > cfg.cache_ttl)) }

/-- `get_cache`: opportunistically evict, then return the stored value
when its age is strictly below the TTL. -/
def getCache (cfg : RateLimitConfig) (st : RLState) (key : CacheKey) (now : ℚ) :
    RLState × Option (List (String × AnalysisResult)) :=
  let st1 := cleanExpiredCache cfg st now
  match st1.cache.find? (fun e => e.1 = key) with
  | some e => if now - e.2.timestamp < cfg.cache_ttl then (st1, some e.2.value) else (st1, none)
  | none => (st1, none)

/-- `set_cache`: store (overwriting) the value with the current instant. -/
def setCache (cfg : RateLimitConfig) (st : RLState) (key : CacheKey) (v : List (String × AnalysisResult)) (now : ℚ) : RLState :=
  { st with cache :=
      (if (st.cache.find? (fun e => e.1 = key)).isSome then
        st.cache.map (fun e => if e.1 = key then (key, CacheEntry.mk v now) else e)
      else st.cache ++ [(key, CacheEntry.mk v now)]) }

/-- Insert a batch item into a key-sorted batch, keeping the sort by key
ascending (helper of `canonKey`). -/
def insertKeyAsc (x : String × List String) : Batch → Batch
  | [] => [x]
  | y :: ys => if listLtChar y.1.data x.1.data then y :: insertKeyAsc x ys else x :: y :: ys

/-- Canonical cache-key content: the batch sorted by device id, modelling
`json.dumps(devices_alerts, sort_keys=True)` inside `compute_cache_key`. -/
def canonKey : Batch → CacheKey
  | [] => []
  | x :: xs => insertKeyAsc x (canonKey xs)

/-- `_get_parent_id`: parent of a device according to the topology
(absent devices have no parent). -/
def getParentId (topo : Topology) (device_id : String) : Option String :=
  match alLookup topo device_id with
  | none => none
  | some info => info.parent_id

/-- `_get_psu_count`: `metadata.hw_inventory.psu_count` when present and
int-castable, else 2 when `metadata.redundancy_type` upper-cases to
`"PSU"`, else the supplied default. -/
def getPsuCount (topo : Topology) (device_id : String) (dflt : Int) : Int :=
  match alLookup topo device_id with
  | none => dflt
  | some info =>
    match info.hwPsuCount with
    | some n => n
    | none => if sUpper info.redundancy_type = "PSU" then 2 else dflt

/-- The `parent → [children...]` index built by `LogicalRCA.__init__`. -/
def childrenMap (topo : Topology) : List (String × List String) :=
  topo.foldl (fun m p =>
    match p.2.parent_id with
    | none => m
    | some pid => alAppendAt m pid p.1) []

/-- `_is_connection_loss`: connectivity-loss classification of one
message. -/
def isConnectionLoss (msg : String) : Bool :=
  let m := sLower msg
  containsSub m "connection lost" || containsSub m "link down" ||
    containsSub m "port down" || containsSub m "unreachable"

/-- The evidentiary report string built for a silent-failure suspect. -/
def suspectReport (parent_id : String) (affected : List String) (total : ℕ) : String :=
  "[Silent Failure Heuristic]\n- Suspected upstream device: " ++ parent_id ++
  "\n- Evidence: " ++ toString affected.length ++ "/" ++ toString total ++
  " children report connection loss\n- Affected children: " ++
  String.intercalate ", " affected ++
  "\n- Recommendation: Check uplinks, power, and management connectivity\n"

/-- `_detect_silent_failures`: for each parent with children, no direct
alarms of its own, at least `SILENT_MIN_CHILDREN = 2` children reporting
connectivity loss and an affected ratio of at least `SILENT_RATIO = 0.5`,
record a suspect entry. -/
def silentStep (msgMap : Batch) (suspects : List (String × SuspectInfo))
    (pc : String × List String) : List (String × SuspectInfo) :=
  let parent_id := pc.1
  let children := pc.2
  if children.isEmpty || alHasKey msgMap parent_id then suspects
  else
    let affected := children.filter
      (fun c => ((alLookup msgMap c).getD []).any isConnectionLoss)
    if affected.isEmpty then suspects
    else
      let total := children.length
      let ratio : ℚ := mkRat affected.length (max total 1)
      if 2 ≤ affected.length ∧ mkRat 1 2 ≤ ratio then
        suspects ++ [(parent_id,
          ⟨affected.length, total, affected, suspectReport parent_id affected total⟩)]
      else suspects

/-- Body of `_detect_silent_failures`: fold the per-parent step over the
parent-to-children index. -/
def detectSilentFailures (topo : Topology) (msgMap : Batch) : List (String × SuspectInfo) :=
  (childrenMap topo).foldl (silentStep msgMap) []

/-- The ordered hard-fail pattern table of local rule 0
(`critical_patterns` in `_apply_local_rules`). -/
def criticalPatterns : List (String × String) :=
  [("Power Supply: Dual Loss", "Device down / dual PSU loss detected"),
   ("Dual Loss", "Dual power loss detected"),
   ("Device Down", "Device is completely down"),
   ("Thermal Shutdown", "Thermal shutdown - device offline")]

/-- The single-(non-dual)-PSU-failure condition of local rule 1, over the
lowercased joined sanitized evidence text. -/
def psuSingleFail (jl : String) : Bool :=
  (containsSub jl "power supply" && containsSub jl "failed" && !containsSub jl "dual") ||
  (containsSub jl "psu" && containsSub jl "fail" && !containsSub jl "dual")

/-- `_apply_local_rules`: the ordered first-match local rule table.
Returns `none` when no rule fires (LLM needed). -/
def applyLocalRules (sanitize : String → String) (topo : Topology)
    (device_id : String) (alerts : List String) : Option AnalysisResult :=
  if alerts.isEmpty then
    some ⟨device_id, .NORMAL, "No active alerts detected.", "NONE", 1, false, true⟩
  else
    let joined := String.intercalate " " (alerts.map sanitize)
    let jl := sLower joined
    match criticalPatterns.find?
        (fun p => containsSub joined p.1 || containsSub jl (sLower p.1)) with
    | some p =>
      some ⟨device_id, .CRITICAL, p.2 ++ " (local safety rule).",
        "Hardware/Physical", mkRat 95 100, false, true⟩
    | none =>
      let psu_count := getPsuCount topo device_id 1
      if psuSingleFail jl then
        (if 2 ≤ psu_count then
          some ⟨device_id, .WARNING,
            "Single PSU failure with redundancy (psu_count=" ++ toString psu_count ++
              ") (local safety rule).",
            "Hardware/Redundancy", mkRat 9 10, false, true⟩
        else
          some ⟨device_id, .CRITICAL,
            "Single PSU failure without redundancy (psu_count=" ++ toString psu_count ++
              ") (local safety rule).",
            "Hardware/Physical", mkRat 9 10, false, true⟩)
      else
      let fan_fail := containsSub jl "fan fail" ||
        (containsSub jl "fan" && containsSub jl "fail")
      let overheat_hint := containsSub jl "high temperature" ||
        containsSub jl "overheat" || containsSub jl "thermal"
      if fan_fail then
        (if overheat_hint then
          some ⟨device_id, .CRITICAL,
            "Fan failure with overheat/thermal symptom detected (local safety rule).",
            "Hardware/Physical", mkRat 9 10, false, true⟩
        else
          some ⟨device_id, .WARNING,
            "Fan failure detected. Service likely continues but risk of thermal escalation (local safety rule).",
            "Hardware/Degraded", mkRat 85 100, false, true⟩)
      else
      let mem_symptom := containsSub jl "memory high" || containsSub jl "memory leak"
      let oom_hint := containsSub jl "out of memory" || containsSub jl "oom" ||
        containsSub jl "killed process"
      if mem_symptom then
        (if oom_hint then
          some ⟨device_id, .CRITICAL,
            "Memory leak/high with OOM/crash symptom detected (local safety rule).",
            "Software/Resource", mkRat 9 10, false, true⟩
        else
          some ⟨device_id, .WARNING,
            "Memory high/leak symptom detected. Likely degraded but not down yet (local safety rule).",
            "Software/Resource", mkRat 8 10, false, true⟩)
      else if containsSub jl "interface down" || containsSub jl "link down" then
        some ⟨device_id, .WARNING, "Interface/Link down detected (local rule).",
          "Network/LinkDown", mkRat 85 100, false, true⟩
      else if containsSub jl "bgp flapping" || containsSub jl "bgp peer down" then
        some ⟨device_id, .WARNING, "BGP instability detected (local rule).",
          "Network/BGP", mkRat 85 100, false, true⟩
      else none

/-- The fixed degraded verdict used when no oracle credential is
configured. -/
def degradedNoApi (d : String) : AnalysisResult :=
  ⟨d, .WARNING, "API key not configured. Manual analysis required.", "UNKNOWN",
    mkRat 3 10, false, false⟩

/-- The degraded verdict built by the `except` handler of the dispatch
`try` block (`AI Analysis Failed: {e}`). -/
def degradedError (msg : String) (d : String) : AnalysisResult :=
  ⟨d, .WARNING, "AI Analysis Failed: " ++ msg, "AI_ERROR", mkRat 2 10, false, false⟩

/-- The conservative default verdict for a device missing from the
oracle response. -/
def missingResult (d : String) : AnalysisResult :=
  ⟨d, .WARNING, "No analysis result from AI", "UNKNOWN", mkRat 3 10, false, false⟩

/-- Status-string mapping of the response parser:
GREEN/NORMAL → NORMAL, YELLOW/WARNING → WARNING, anything else (default
`"WARNING"` when absent) → CRITICAL. -/
def parseStatus (s : Option String) : HealthStatus :=
  let str := sUpper (s.getD "WARNING")
  if str = "GREEN" ∨ str = "NORMAL" then .NORMAL
  else if str = "YELLOW" ∨ str = "WARNING" then .WARNING
  else .CRITICAL

/-- The verdict built from one recognised oracle response item. -/
def mkOracleResult (dev : String) (it : OracleItem) : AnalysisResult :=
  ⟨dev, parseStatus it.status, it.reason.getD "AI provided no reason",
    it.impact_type.getD "UNKNOWN", mkRat 7 10, false, false⟩

/-- The response-mapping loop: items whose `device_id` is not in the
batch are skipped, recognised ones are dict-assigned into the result
map. -/
def oracleFold (batch : Batch) : List OracleItem →
    List (String × AnalysisResult) → List (String × AnalysisResult)
  | [], acc => acc
  | it :: its, acc =>
    let dev := it.device_id.getD ""
    if alHasKey batch dev then
      oracleFold batch its (alUpsert acc dev (mkOracleResult dev it))
    else oracleFold batch its acc

/-- The missing-device repair loop: every batch device absent from the
mapped results gets the conservative default, in batch order. -/
def fillMissing (batch : Batch) (acc : List (String × AnalysisResult)) :
    List (String × AnalysisResult) :=
  batch.foldl (fun a p => if alHasKey a p.1 then a else a ++ [(p.1, missingResult p.1)]) acc

/-- Full parsing of a successful oracle response for a batch. -/
def oracleToResults (batch : Batch) (items : List OracleItem) :
    List (String × AnalysisResult) :=
  fillMissing batch (oracleFold batch items [])

/-- `_analyze_batch_with_llm`, fuelled.  `none` models a Python exception
escaping the method, which for this method can only be the unbounded
split recursion (`RecursionError`); every handled path yields `some`.
Control flow, in source order: missing-credential fallback; cache lookup
(the Python truthiness test `if cached:` makes an empty cached dict a
miss); `check_input_limit` split recursion; dispatch guarded by
`wait_for_slot`, `record_request`, the model call, response mapping,
missing-device repair and `set_cache`, with every failure inside the
`try` collapsing to per-device degraded verdicts. -/
def analyzeBatchGo (cfg : RateLimitConfig) (env : ℕ → OracleEvent)
    (promptFits : Batch → Bool)
    (recur : Batch → RLState → ℚ → Option (List (String × AnalysisResult) × RLState))
    (batch : Batch) (st1 : RLState) (now : ℚ) :
    Option (List (String × AnalysisResult) × RLState) :=
  if promptFits batch = false then
    let mid := batch.length / 2
    match recur (batch.take mid) st1 now with
    | none => none
    | some r1 =>
      match recur (batch.drop mid) r1.2 now with
      | none => none
      | some r2 => some (dictUpdate r1.1 r2.1, r2.2)
  else
    let st2 := { st1 with dispatchCount := st1.dispatchCount + 1 }
    match env st1.dispatchCount with
    | .timeout =>
      some (batch.map (fun p => (p.1, degradedError "Rate limit exceeded" p.1)), st2)
    | .fail msg =>
      let st3 := { recordRequest cfg st2 now with
        oracleCalls := st2.oracleCalls + 1 }
      some (batch.map (fun p => (p.1, degradedError msg p.1)), st3)
    | .ok items =>
      let st3 := { recordRequest cfg st2 now with
        oracleCalls := st2.oracleCalls + 1 }
      let results := oracleToResults batch items
      let st4 := setCache cfg st3 (canonKey batch) results now
      some (results, st4)

/-- Body of `_analyze_batch_with_llm` proper; see the doc comment just
above for the path inventory.  The cache-miss continuation (size check,
split recursion, dispatch) is `analyzeBatchGo`. -/
def analyzeBatch (cfg : RateLimitConfig) (env : ℕ → OracleEvent)
    (promptFits : Batch → Bool) (apiOk : Bool) :
    ℕ → Batch → RLState → ℚ → Option (List (String × AnalysisResult) × RLState)
  | 0, _, _, _ => none
  | fuel + 1, batch, st, now =>
    if apiOk = false then
      some (batch.map (fun p => (p.1, degradedNoApi p.1)), st)
    else
      let g := getCache cfg st (canonKey batch) now
      let hitVal := match g.2 with
        | some v => if v = [] then none else some v
        | none => none
      match hitVal with
      | some v => some (v, g.1)
      | none =>
        analyzeBatchGo cfg env promptFits
          (analyzeBatch cfg env promptFits apiOk fuel) batch g.1 now

/-- The probability/tier surfacing of an `AnalysisResult` status in
`infer_root_cause` (CRITICAL → 0.9/1, WARNING → 0.7/2, else 0.3/3). -/
def statusProbTier : HealthStatus → ℚ × ℕ
  | .CRITICAL => (mkRat 9 10, 1)
  | .WARNING => (mkRat 7 10, 2)
  | .NORMAL => (mkRat 3 10, 3)

/-- Python `parent_id in d` for an optional parent id
(`None in d` is `False`). -/
def parentHasKey {β : Type} (l : List (String × β)) : Option String → Bool
  | some pid => alHasKey l pid
  | none => false

/-- One iteration of the main loop of `infer_root_cause` for the device
`p.1` with messages `p.2`: either a finished ranked entry (left) or a
deferred LLM work item (right), following the source's branch order. -/
def classifyOne (sanitize : String → String) (topo : Topology)
    (suspects : List (String × SuspectInfo)) (alarmed : Batch)
    (p : String × List String) : RcaEntry ⊕ (String × List String) :=
  let device_id := p.1
  let messages := p.2
  let parent_id := getParentId topo device_id
  if parentHasKey suspects parent_id && messages.any isConnectionLoss then
    .inl ⟨device_id, String.intercalate " / " messages, mkRat 4 10,
      "Network/ConnectionLost", 3,
      "Downstream symptom under suspected silent failure parent (parent=" ++
        (parent_id.getD "") ++ ").", none, []⟩
  else if (messages.any (fun m => containsSub (sLower m) "unreachable")) &&
      parentHasKey alarmed parent_id then
    .inl ⟨device_id, String.intercalate " / " messages, mkRat 2 10,
      "Network/Unreachable", 3,
      "Downstream unreachable due to upstream alarm (parent=" ++
        (parent_id.getD "") ++ ").", none, []⟩
  else if h : (alLookup suspects device_id).isSome then
    let info := (alLookup suspects device_id).get h
    .inl ⟨device_id,
      (if messages.isEmpty then "Silent Failure Suspected"
       else String.intercalate " / " messages),
      mkRat 8 10, "Network/SilentFailure", 1,
      "Silent failure suspected: " ++ toString info.evidence_count ++ "/" ++
        toString info.total_children ++ " children affected.",
      some info.report,
      ["Pull interface counters/errors (uplinks)",
       "Check STP/MAC flaps",
       "Ping/ARP reachability tests from upstream",
       "Correlate syslog around incident time"]⟩
  else
    match applyLocalRules sanitize topo device_id messages with
    | some local_result =>
      let pt := statusProbTier local_result.status
      .inl ⟨device_id, String.intercalate " / " messages, pt.1,
        local_result.impact_type, pt.2, local_result.reason, none, []⟩
    | none => .inr (device_id, messages)

/-- The main loop of `infer_root_cause`: locally finished entries (in
alarm-map order) and the `llm_needed` work map. -/
def classifyLocal (sanitize : String → String) (topo : Topology) (msgMap : Batch) :
    List RcaEntry × Batch :=
  let suspects := detectSilentFailures topo msgMap
  (msgMap.filterMap (fun p => (classifyOne sanitize topo suspects msgMap p).getLeft?),
   msgMap.filterMap (fun p => (classifyOne sanitize topo suspects msgMap p).getRight?))

/-- The merge of one batch's verdicts into ranked entries
(`messages = llm_needed[dev_id]`; a missing key would be a `KeyError`,
modelled as `none`). -/
def batchEntries (llmNeeded : Batch) : List (String × AnalysisResult) →
    Option (List RcaEntry)
  | [] => some []
  | p :: ps =>
    match alLookup llmNeeded p.1 with
    | none => none
    | some messages =>
      match batchEntries llmNeeded ps with
      | none => none
      | some rest =>
        let pt := statusProbTier p.2.status
        some ((⟨p.1, String.intercalate " / " messages, pt.1, p.2.impact_type, pt.2,
          p.2.reason, none, []⟩ : RcaEntry) :: rest)

/-- The batch loop of `infer_root_cause`: dispatch each chunk of at most
`MAX_BATCH_SIZE` devices through `_analyze_batch_with_llm`, threading the
limiter state, and collect the ranked entries. -/
def processChunks (cfg : RateLimitConfig) (env : ℕ → OracleEvent)
    (promptFits : Batch → Bool) (apiOk : Bool) (fuel : ℕ) (llmNeeded : Batch) :
    List Batch → RLState → ℚ → Option (List RcaEntry × RLState)
  | [], st, _ => some ([], st)
  | b :: bs, st, now =>
    match analyzeBatch cfg env promptFits apiOk fuel b st now with
    | none => none
    | some r =>
      match batchEntries llmNeeded r.1 with
      | none => none
      | some es =>
        match processChunks cfg env promptFits apiOk fuel llmNeeded bs r.2 now with
        | none => none
        | some rest => some (es ++ rest.1, rest.2)

/-- Stable insertion of an entry into a probability-descending list: the
entry goes after every element with strictly greater probability and
before everything else (helper of `sortProbDesc`). -/
def insertProbDesc (x : RcaEntry) : List RcaEntry → List RcaEntry
  | [] => [x]
  | y :: ys => if x.prob < y.prob then y :: insertProbDesc x ys else x :: y :: ys

/-- Stable sort by probability descending, modelling
`results.sort(key=lambda x: x["prob"], reverse=True)` (Python's sort is
stable, and a stable sort under a fixed key is unique as a function, so
this insertion sort computes exactly what timsort does). -/
def sortProbDesc : List RcaEntry → List RcaEntry
  | [] => []
  | x :: xs => insertProbDesc x (sortProbDesc xs)

/-- `infer_root_cause`, fuelled (the fuel bounds the split recursion of
`_analyze_batch_with_llm`; `none` models an escaping exception). -/
def inferRootCause (cfg : RateLimitConfig) (env : ℕ → OracleEvent)
    (promptFits : Batch → Bool) (apiOk : Bool) (sanitize : String → String)
    (topo : Topology) (fuel : ℕ) (msgMap : Batch) (st : RLState) (now : ℚ) :
    Option (List RcaEntry × RLState) :=
  if msgMap.isEmpty then some ([], st)
  else
    let c := classifyLocal sanitize topo msgMap
    match processChunks cfg env promptFits apiOk fuel c.2 (chunks5 c.2) st now with
    | none => none
    | some r => some (sortProbDesc (c.1 ++ r.1), r.2)

/-- One constructed `GlobalRateLimiter`: the configuration frozen at
initialisation plus the shared mutable state (window, counters, cache). -/
structure LimiterInstance where
  config : RateLimitConfig
  state : RLState
deriving DecidableEq

/-- The body of `__init__` on a not-yet-initialised instance:
`self.config = config or RateLimitConfig()` and fresh state. -/
def initLimiter (cfg : Option RateLimitConfig) : LimiterInstance :=
  { config := cfg.getD {}, state := {} }

/-- `GlobalRateLimiter(config)`: `__new__` returns the existing
`_instance` when there is one, in which case `__init__` sees
`_initialized` and returns immediately, silently dropping `config`;
otherwise the instance is created and initialised. -/
def constructLimiter (inst : Option LimiterInstance) (cfg : Option RateLimitConfig) :
    LimiterInstance :=
  match inst with
  | some l => l
  | none => initLimiter cfg

/-- The process-lifetime sequence of constructor calls, starting from the
module-level `_instance` (initially `None`). -/
def constructAll : List (Option RateLimitConfig) → Option LimiterInstance →
    Option LimiterInstance
  | [], inst => inst
  | c :: cs, inst => constructAll cs (some (constructLimiter inst c))

/-- Modelled from the spec (section 3): the fixed probability-to-tier
mapping, `probability > 0.8 → tier 1`, `> 0.6 → tier 2`, else tier 3.
This is the spec-side definition that the code's outputs are compared
against. -/
def specTier (p : ℚ) : ℕ :=
  if mkRat 8 10 < p then 1 else if mkRat 6 10 < p then 2 else 3

/-- Modelled from the spec (section 4.5, step 6): the ordering the spec
claims for the output list — probability descending, ties broken by tier
ascending, then by device id lexicographically. -/
def specSortedC3 (l : List RcaEntry) : Prop :=
  l.Pairwise (fun x y => y.prob < x.prob ∨
    (x.prob = y.prob ∧ (x.tier < y.tier ∨
      (x.tier = y.tier ∧ (listLtChar x.id.data y.id.data = true ∨ x.id = y.id)))))

instance (l : List RcaEntry) : Decidable (specSortedC3 l) := by
  unfold specSortedC3
  infer_instance

/-! ### Helper lemmas: association lists -/

theorem alHasKey_iff_mem {β : Type} (l : List (String × β)) (k : String) :
    alHasKey l k = true ↔ k ∈ alKeys l := by
  induction l with
  | nil => simp [alHasKey, alLookup, alKeys]
  | cons p ps ih =>
    simp only [alHasKey, alLookup, alKeys] at ih ⊢
    by_cases h : p.1 = k
    · rw [List.find?_cons_of_pos _ (by simp [h])]
      simp [h]
    · rw [List.find?_cons_of_neg _ (by simp [h])]
      simp only [List.map_cons, List.mem_cons]
      rw [ih]
      constructor
      · intro hk
        exact Or.inr hk
      · rintro (hk | hk)
        · exact absurd hk.symm h
        · exact hk

theorem alHasKey_eq_false_iff {β : Type} (l : List (String × β)) (k : String) :
    alHasKey l k = false ↔ k ∉ alKeys l := by
  rw [← Bool.not_eq_true, not_iff_not]
  exact alHasKey_iff_mem l k

theorem alHasKey_of_mem {β : Type} {l : List (String × β)} {p : String × β}
    (h : p ∈ l) : alHasKey l p.1 = true :=
  (alHasKey_iff_mem l p.1).mpr (List.mem_map_of_mem Prod.fst h)

theorem alLookup_isSome_of_hasKey {β : Type} {l : List (String × β)} {k : String}
    (h : alHasKey l k = true) : (alLookup l k).isSome = true := h

theorem alKeys_append {β : Type} (l1 l2 : List (String × β)) :
    alKeys (l1 ++ l2) = alKeys l1 ++ alKeys l2 := by
  simp [alKeys]

theorem alKeys_alUpsert {β : Type} (l : List (String × β)) (k : String) (v : β) :
    alKeys (alUpsert l k v) = if alHasKey l k then alKeys l else alKeys l ++ [k] := by
  unfold alUpsert
  by_cases h : alHasKey l k
  · simp only [h, if_true]
    unfold alKeys
    rw [List.map_map]
    apply List.map_congr_left
    intro p _
    by_cases hp : p.1 = k
    · simp [hp]
    · simp [hp]
  · simp only [h]
    simp [alKeys]

theorem alUpsert_of_not_hasKey {β : Type} {l : List (String × β)} {k : String} (v : β)
    (h : alHasKey l k = false) : alUpsert l k v = l ++ [(k, v)] := by
  unfold alUpsert
  simp [h]

/-! ### Helper lemmas: stable probability sort -/

theorem insertProbDesc_perm (x : RcaEntry) (l : List RcaEntry) :
    (insertProbDesc x l).Perm (x :: l) := by
  induction l with
  | nil => simp [insertProbDesc]
  | cons y ys ih =>
    unfold insertProbDesc
    by_cases h : x.prob < y.prob
    · simp only [h, if_true]
      exact (ih.cons y).trans (List.Perm.swap x y ys)
    · simp [h]

theorem sortProbDesc_perm (l : List RcaEntry) : (sortProbDesc l).Perm l := by
  induction l with
  | nil => simp [sortProbDesc]
  | cons x xs ih =>
    unfold sortProbDesc
    exact (insertProbDesc_perm x (sortProbDesc xs)).trans (ih.cons x)

theorem insertProbDesc_sorted {x : RcaEntry} {l : List RcaEntry}
    (h : l.Pairwise (fun a b => b.prob ≤ a.prob)) :
    (insertProbDesc x l).Pairwise (fun a b => b.prob ≤ a.prob) := by
  induction l with
  | nil => simp [insertProbDesc]
  | cons y ys ih =>
    unfold insertProbDesc
    rcases List.pairwise_cons.mp h with ⟨hy, hys⟩
    by_cases hlt : x.prob < y.prob
    · simp only [hlt, if_true]
      rw [List.pairwise_cons]
      refine ⟨?_, ih hys⟩
      intro b hb
      rcases List.mem_cons.mp ((insertProbDesc_perm x ys).mem_iff.mp hb) with hbx | hbys
      · exact hbx ▸ le_of_lt hlt
      · exact hy b hbys
    · simp only [hlt, if_false]
      rw [List.pairwise_cons]
      constructor
      · intro b hb
        rcases List.mem_cons.mp hb with hby | hbys
        · exact hby ▸ le_of_not_lt hlt
        · exact le_trans (hy b hbys) (le_of_not_lt hlt)
      · exact h

theorem sortProbDesc_sorted (l : List RcaEntry) :
    (sortProbDesc l).Pairwise (fun a b => b.prob ≤ a.prob) := by
  induction l with
  | nil => simp [sortProbDesc]
  | cons x xs ih =>
    unfold sortProbDesc
    exact insertProbDesc_sorted ih

/-! ### Helper lemmas: canonical cache key and batching -/

theorem insertKeyAsc_perm (x : String × List String) (l : Batch) :
    (insertKeyAsc x l).Perm (x :: l) := by
  induction l with
  | nil => simp [insertKeyAsc]
  | cons y ys ih =>
    unfold insertKeyAsc
    by_cases h : listLtChar y.1.data x.1.data
    · simp only [h, if_true]
      exact (ih.cons y).trans (List.Perm.swap x y ys)
    · simp [h]

theorem canonKey_perm (b : Batch) : (canonKey b).Perm b := by
  induction b with
  | nil => simp [canonKey]
  | cons x xs ih =>
    unfold canonKey
    exact (insertKeyAsc_perm x (canonKey xs)).trans (ih.cons x)

theorem chunks5_flatten {α : Type} (l : List α) : (chunks5 l).flatten = l := by
  induction l using chunks5.induct with
  | case1 => simp [chunks5]
  | case2 a => simp [chunks5]
  | case3 a b => simp [chunks5]
  | case4 a b c => simp [chunks5]
  | case5 a b c d => simp [chunks5]
  | case6 a b c d e rest ih =>
    simp [chunks5, ih]

theorem chunks5_sublist {α : Type} {l : List α} {c : List α} (h : c ∈ chunks5 l) :
    c.Sublist l := by
  induction l using chunks5.induct with
  | case1 => simp [chunks5] at h
  | case2 a => simp [chunks5] at h; simp [h]
  | case3 a b => simp [chunks5] at h; simp [h]
  | case4 a b c2 => simp [chunks5] at h; simp [h]
  | case5 a b c2 d => simp [chunks5] at h; simp [h]
  | case6 a b c2 d e rest ih =>
    simp only [chunks5, List.mem_cons] at h
    rcases h with h | h
    · subst h
      refine List.Sublist.cons₂ _ (List.Sublist.cons₂ _ (List.Sublist.cons₂ _
        (List.Sublist.cons₂ _ (List.Sublist.cons₂ _ (List.nil_sublist rest)))))
    · exact (ih h).trans ((List.sublist_cons_self e rest).trans
        ((List.sublist_cons_self d _).trans ((List.sublist_cons_self c2 _).trans
          ((List.sublist_cons_self b _).trans (List.sublist_cons_self a _)))))

/-! ### Helper lemmas: silent-failure suspects are never alarmed devices -/

theorem silentStep_not_alarmed {msgMap : Batch} {acc : List (String × SuspectInfo)}
    {pc : String × List String}
    (h : ∀ q ∈ acc, alHasKey msgMap q.1 = false) :
    ∀ q ∈ silentStep msgMap acc pc, alHasKey msgMap q.1 = false := by
  intro q hq
  unfold silentStep at hq
  dsimp only at hq
  by_cases h1 : pc.2.isEmpty || alHasKey msgMap pc.1
  · rw [if_pos h1] at hq
    exact h q hq
  · rw [if_neg h1] at hq
    split at hq
    · exact h q hq
    · split at hq
      · rcases List.mem_append.mp hq with hq2 | hq2
        · exact h q hq2
        · have hk : q.1 = pc.1 := by
            rcases List.mem_singleton.mp hq2 with rfl
            rfl
          rw [hk]
          rcases Bool.or_eq_false_iff.mp (Bool.eq_false_iff.mpr h1) with ⟨_, hb⟩
          exact hb
      · exact h q hq

theorem detectSilentFailures_not_alarmed (topo : Topology) (msgMap : Batch) :
    ∀ q ∈ detectSilentFailures topo msgMap, alHasKey msgMap q.1 = false := by
  unfold detectSilentFailures
  generalize childrenMap topo = l
  have main : ∀ (l : List (String × List String)) (acc : List (String × SuspectInfo)),
      (∀ q ∈ acc, alHasKey msgMap q.1 = false) →
      ∀ q ∈ l.foldl (silentStep msgMap) acc, alHasKey msgMap q.1 = false := by
    intro l
    induction l with
    | nil => intro acc hacc q hq; exact hacc q hq
    | cons pc rest ih =>
      intro acc hacc q hq
      rw [List.foldl_cons] at hq
      exact ih (silentStep msgMap acc pc) (silentStep_not_alarmed hacc) q hq
  exact main l [] (by intro q hq; cases hq)

theorem suspects_hasKey_imp {topo : Topology} {msgMap : Batch} {k : String}
    (h : alHasKey (detectSilentFailures topo msgMap) k = true) :
    alHasKey msgMap k = false := by
  rcases List.mem_map.mp ((alHasKey_iff_mem _ k).mp h) with ⟨q, hq, hk⟩
  exact hk ▸ detectSilentFailures_not_alarmed topo msgMap q hq

/-! ### Helper lemmas: splitting the main loop -/

theorem filterMap_sum_keys_perm {α γ δ : Type} (F : α → γ ⊕ δ) (kL : γ → String)
    (kR : δ → String) (k : α → String)
    (hk : ∀ a, (∀ b, F a = .inl b → kL b = k a) ∧ (∀ c, F a = .inr c → kR c = k a)) :
    ∀ l : List α,
      ((l.filterMap (fun a => (F a).getLeft?)).map kL ++
        (l.filterMap (fun a => (F a).getRight?)).map kR).Perm (l.map k) := by
  intro l
  induction l with
  | nil => simp
  | cons a rest ih =>
    rcases hFa : F a with b | c
    · simp only [List.filterMap_cons, hFa, Sum.getLeft?, Sum.getRight?, List.map_cons,
        List.cons_append, List.map]
      rw [(hk a).1 b hFa]
      exact ih.cons (k a)
    · simp only [List.filterMap_cons, hFa, Sum.getLeft?, Sum.getRight?, List.map_cons,
        List.map]
      rw [(hk a).2 c hFa]
      exact List.perm_middle.trans (ih.cons (k a))

theorem filterMap_right_keys_sublist {α δ γ : Type} (F : α → γ ⊕ δ) (kR : δ → String)
    (k : α → String) (hk : ∀ a, ∀ c, F a = .inr c → kR c = k a) :
    ∀ l : List α,
      ((l.filterMap (fun a => (F a).getRight?)).map kR).Sublist (l.map k) := by
  intro l
  induction l with
  | nil => simp
  | cons a rest ih =>
    rcases hFa : F a with b | c
    · simp only [List.filterMap_cons, hFa, Sum.getRight?, List.map_cons]
      exact ih.trans (List.sublist_cons_self (k a) (rest.map k))
    · simp only [List.filterMap_cons, hFa, Sum.getRight?, List.map_cons, List.map]
      rw [hk a c hFa]
      exact ih.cons₂ (k a)

theorem classifyOne_key (sanitize : String → String) (topo : Topology)
    (suspects : List (String × SuspectInfo)) (alarmed : Batch)
    (p : String × List String) :
    (∀ e, classifyOne sanitize topo suspects alarmed p = .inl e → e.id = p.1) ∧
    (∀ q, classifyOne sanitize topo suspects alarmed p = .inr q → q.1 = p.1) := by
  unfold classifyOne
  dsimp only
  constructor
  · intro e he
    split at he
    · cases he; rfl
    · split at he
      · cases he; rfl
      · split at he
        · cases he; rfl
        · split at he
          · cases he; rfl
          · cases he
  · intro q hq
    split at hq
    · cases hq
    · split at hq
      · cases hq
      · split at hq
        · cases hq
        · split at hq
          · cases hq
          · cases hq; rfl

theorem classifyLocal_keys_perm (sanitize : String → String) (topo : Topology)
    (msgMap : Batch) :
    (((classifyLocal sanitize topo msgMap).1.map RcaEntry.id) ++
      alKeys (classifyLocal sanitize topo msgMap).2).Perm (alKeys msgMap) := by
  unfold classifyLocal alKeys
  exact filterMap_sum_keys_perm
    (classifyOne sanitize topo (detectSilentFailures topo msgMap) msgMap)
    RcaEntry.id Prod.fst Prod.fst
    (fun a => ⟨fun b hb => (classifyOne_key _ _ _ _ a).1 b hb,
      fun c hc => (classifyOne_key _ _ _ _ a).2 c hc⟩)
    msgMap

theorem classifyLocal_llm_keys_sublist (sanitize : String → String) (topo : Topology)
    (msgMap : Batch) :
    (alKeys (classifyLocal sanitize topo msgMap).2).Sublist (alKeys msgMap) := by
  unfold classifyLocal alKeys
  exact filterMap_right_keys_sublist
    (classifyOne sanitize topo (detectSilentFailures topo msgMap) msgMap)
    Prod.fst Prod.fst
    (fun a c hc => (classifyOne_key _ _ _ _ a).2 c hc)
    msgMap

/-! ### Helper lemmas: oracle-response coverage -/

theorem oracleFold_keys (batch : Batch) :
    ∀ (items : List OracleItem) (acc : List (String × AnalysisResult)),
      (alKeys acc).Nodup → (∀ x ∈ alKeys acc, x ∈ alKeys batch) →
      (alKeys (oracleFold batch items acc)).Nodup ∧
        ∀ x ∈ alKeys (oracleFold batch items acc), x ∈ alKeys batch := by
  intro items
  induction items with
  | nil => intro acc h1 h2; exact ⟨h1, h2⟩
  | cons it its ih =>
    intro acc h1 h2
    unfold oracleFold
    dsimp only
    by_cases hdev : alHasKey batch (it.device_id.getD "")
    · rw [if_pos hdev]
      apply ih
      · rw [alKeys_alUpsert]
        by_cases hacc : alHasKey acc (it.device_id.getD "")
        · rw [if_pos hacc]; exact h1
        · rw [if_neg (by simp [hacc])]
          rw [List.nodup_append]
          refine ⟨h1, List.nodup_singleton _, ?_⟩
          intro x hx hx2
          rcases List.mem_singleton.mp hx2 with rfl
          exact hacc ((alHasKey_iff_mem acc _).mpr hx)
      · intro x hx
        rw [alKeys_alUpsert] at hx
        by_cases hacc : alHasKey acc (it.device_id.getD "")
        · rw [if_pos hacc] at hx; exact h2 x hx
        · rw [if_neg (by simp [hacc])] at hx
          rcases List.mem_append.mp hx with hx2 | hx2
          · exact h2 x hx2
          · rcases List.mem_singleton.mp hx2 with rfl
            exact (alHasKey_iff_mem batch _).mp hdev
    · rw [if_neg hdev]
      exact ih acc h1 h2

theorem fillMissing_spec (batch : Batch) :
    ∀ (acc : List (String × AnalysisResult)), (alKeys acc).Nodup →
      (alKeys (fillMissing batch acc)).Nodup ∧
      (∀ x ∈ alKeys (fillMissing batch acc), x ∈ alKeys acc ∨ x ∈ alKeys batch) ∧
      (∀ p ∈ batch, p.1 ∈ alKeys (fillMissing batch acc)) ∧
      (∀ x ∈ alKeys acc, x ∈ alKeys (fillMissing batch acc)) := by
  induction batch with
  | nil =>
    intro acc h1
    refine ⟨h1, fun x hx => Or.inl hx, fun p hp => absurd hp (List.not_mem_nil p), fun x hx => hx⟩
  | cons p ps ih =>
    intro acc h1
    have hstep : fillMissing (p :: ps) acc =
        fillMissing ps (if alHasKey acc p.1 then acc else acc ++ [(p.1, missingResult p.1)]) := by
      unfold fillMissing
      rw [List.foldl_cons]
    by_cases hacc : alHasKey acc p.1
    · rw [hstep, if_pos hacc]
      rcases ih acc h1 with ⟨n1, n2, n3, n4⟩
      refine ⟨n1, ?_, ?_, n4⟩
      · intro x hx
        rcases n2 x hx with hx2 | hx2
        · exact Or.inl hx2
        · exact Or.inr (List.mem_cons_of_mem _ hx2)
      · intro q hq
        rcases List.mem_cons.mp hq with rfl | hq2
        · exact n4 q.1 ((alHasKey_iff_mem acc q.1).mp hacc)
        · exact n3 q hq2
    · rw [hstep, if_neg hacc]
      have hn2 : (alKeys (acc ++ [(p.1, missingResult p.1)])).Nodup := by
        rw [alKeys_append, List.nodup_append]
        refine ⟨h1, List.nodup_singleton _, ?_⟩
        intro x hx hx2
        rcases List.mem_singleton.mp hx2 with rfl
        exact hacc ((alHasKey_iff_mem acc _).mpr hx)
      rcases ih (acc ++ [(p.1, missingResult p.1)]) hn2 with ⟨n1, n2, n3, n4⟩
      refine ⟨n1, ?_, ?_, ?_⟩
      · intro x hx
        rcases n2 x hx with hx2 | hx2
        · rw [alKeys_append] at hx2
          rcases List.mem_append.mp hx2 with hx3 | hx3
          · exact Or.inl hx3
          · rcases List.mem_singleton.mp hx3 with rfl
            exact Or.inr (List.mem_cons_self _ _)
        · exact Or.inr (List.mem_cons_of_mem _ hx2)
      · intro q hq
        rcases List.mem_cons.mp hq with rfl | hq2
        · apply n4
          rw [alKeys_append]
          exact List.mem_append.mpr (Or.inr (List.mem_singleton_self _))
        · exact n3 q hq2
      · intro x hx
        apply n4
        rw [alKeys_append]
        exact List.mem_append.mpr (Or.inl hx)

theorem oracleToResults_keys {batch : Batch} (items : List OracleItem)
    (hN : (alKeys batch).Nodup) :
    (alKeys (oracleToResults batch items)).Nodup ∧
      (alKeys (oracleToResults batch items)).Perm (alKeys batch) := by
  unfold oracleToResults
  have h0 : (alKeys ([] : List (String × AnalysisResult))).Nodup := by simp [alKeys]
  rcases oracleFold_keys batch items [] h0 (by simp [alKeys]) with ⟨f1, f2⟩
  rcases fillMissing_spec batch (oracleFold batch items []) f1 with ⟨n1, n2, n3, _⟩
  refine ⟨n1, ?_⟩
  rw [List.perm_ext_iff_of_nodup n1 hN]
  intro a
  constructor
  · intro ha
    rcases n2 a ha with ha2 | ha2
    · exact f2 a ha2
    · exact ha2
  · intro ha
    rcases List.mem_map.mp ha with ⟨q, hq, hqa⟩
    exact hqa ▸ n3 q hq

theorem oracleToResults_ne_nil {batch : Batch} (items : List OracleItem)
    (hne : batch ≠ []) : oracleToResults batch items ≠ [] := by
  rcases batch with _ | ⟨p, ps⟩
  · exact absurd rfl hne
  · intro hcontra
    have h0 : (alKeys ([] : List (String × AnalysisResult))).Nodup := by simp [alKeys]
    rcases oracleFold_keys (p :: ps) items [] h0 (by simp [alKeys]) with ⟨f1, _⟩
    rcases fillMissing_spec (p :: ps) (oracleFold (p :: ps) items []) f1 with ⟨_, _, n3, _⟩
    have := n3 p (List.mem_cons_self p ps)
    rw [show oracleToResults (p :: ps) items = fillMissing (p :: ps) (oracleFold (p :: ps) items []) from rfl] at hcontra
    rw [hcontra] at this
    simp [alKeys] at this

/-! ### Helper lemmas: dict update of fresh keys -/

theorem dictUpdate_append {β : Type} :
    ∀ (l2 l : List (String × β)), (∀ p ∈ l2, alHasKey l p.1 = false) →
      (alKeys l2).Nodup → dictUpdate l l2 = l ++ l2 := by
  intro l2
  induction l2 with
  | nil => intro l _ _; simp [dictUpdate]
  | cons p ps ih =>
    intro l hfresh hnod
    have hstep : dictUpdate l (p :: ps) = dictUpdate (alUpsert l p.1 p.2) ps := by
      unfold dictUpdate
      rw [List.foldl_cons]
    rw [hstep, alUpsert_of_not_hasKey p.2 (hfresh p (List.mem_cons_self p ps))]
    have hps : ∀ q ∈ ps, alHasKey (l ++ [(p.1, p.2)]) q.1 = false := by
      intro q hq
      rw [alHasKey_eq_false_iff, alKeys_append]
      intro hmem
      rcases List.mem_append.mp hmem with hm | hm
      · exact absurd hm ((alHasKey_eq_false_iff l q.1).mp (hfresh q (List.mem_cons_of_mem p hq)))
      · rcases List.mem_singleton.mp hm with hm2
        rw [alKeys, List.map_cons, List.nodup_cons] at hnod
        exact hnod.1 (hm2 ▸ List.mem_map_of_mem Prod.fst hq)
    rw [ih (l ++ [(p.1, p.2)]) hps (by
      rw [alKeys, List.map_cons, List.nodup_cons] at hnod
      exact hnod.2)]
    simp

/-! ### Helper lemmas: per-batch entry construction -/

theorem batchEntries_spec (llmNeeded : Batch) :
    ∀ (br : List (String × AnalysisResult)),
      (∀ k ∈ alKeys br, alHasKey llmNeeded k = true) →
      ∃ es, batchEntries llmNeeded br = some es ∧
        es.map RcaEntry.id = alKeys br ∧
        ∀ e ∈ es, ∃ a : AnalysisResult,
          (∃ p ∈ br, p.2 = a ∧ e.id = p.1) ∧
          e.prob = (statusProbTier a.status).1 ∧ e.tier = (statusProbTier a.status).2 ∧
          e.type = a.impact_type ∧ e.reason = a.reason := by
  intro br
  induction br with
  | nil =>
    intro _
    exact ⟨[], rfl, by simp [alKeys], by intro e he; cases he⟩
  | cons p ps ih =>
    intro hk
    have hkp : alHasKey llmNeeded p.1 = true :=
      hk p.1 (List.mem_map_of_mem Prod.fst (List.mem_cons_self p ps))
    rcases Option.isSome_iff_exists.mp (alLookup_isSome_of_hasKey hkp) with ⟨messages, hmsg⟩
    rcases ih (fun k hkk => hk k (by
      rw [alKeys, List.map_cons]
      exact List.mem_cons_of_mem _ hkk)) with ⟨rest, hrest, hids, hprops⟩
    refine ⟨(⟨p.1, String.intercalate " / " messages, (statusProbTier p.2.status).1,
      p.2.impact_type, (statusProbTier p.2.status).2, p.2.reason, none, []⟩ : RcaEntry)
        :: rest, ?_, ?_, ?_⟩
    · unfold batchEntries
      rw [hmsg, hrest]
    · simp only [List.map_cons, alKeys, hids]
    · intro e he
      rcases List.mem_cons.mp he with rfl | he2
      · exact ⟨p.2, ⟨p, List.mem_cons_self p ps, rfl, rfl⟩, rfl, rfl, rfl, rfl⟩
      · rcases hprops e he2 with ⟨a, ⟨q, hq, hqa, hqe⟩, h3, h4, h5, h6⟩
        exact ⟨a, ⟨q, List.mem_cons_of_mem p hq, hqa, hqe⟩, h3, h4, h5, h6⟩

/-! ### Helper lemmas: cache well-formedness and batch coverage -/

/-- A limiter cache is well formed when every stored value is a result
map whose keys are exactly (up to order) the device ids of the batch it
was keyed by.  Every value `set_cache` ever stores on the batch path has
this shape, and a fresh cache has no entries at all. -/
def WFCache (st : RLState) : Prop :=
  ∀ e ∈ st.cache, (alKeys e.2.value).Nodup ∧ (alKeys e.2.value).Perm (alKeys e.1)

theorem WFCache_clean {cfg : RateLimitConfig} {st : RLState} {now : ℚ}
    (h : WFCache st) : WFCache (cleanExpiredCache cfg st now) := by
  intro e he
  exact h e (List.mem_of_mem_filter he)

theorem getCache_fst (cfg : RateLimitConfig) (st : RLState) (key : CacheKey) (now : ℚ) :
    (getCache cfg st key now).1 = cleanExpiredCache cfg st now := by
  unfold getCache
  dsimp only
  split
  · split <;> rfl
  · rfl

theorem getCache_val_WF {cfg : RateLimitConfig} {st : RLState} {key : CacheKey}
    {now : ℚ} {v : List (String × AnalysisResult)}
    (hWF : WFCache st) (h : (getCache cfg st key now).2 = some v) :
    (alKeys v).Nodup ∧ (alKeys v).Perm (alKeys key) := by
  unfold getCache at h
  dsimp only at h
  rcases hf : (cleanExpiredCache cfg st now).cache.find? (fun e => e.1 = key) with _ | e
  · rw [hf] at h
    simp at h
  · rw [hf] at h
    have hmem : e ∈ st.cache :=
      List.mem_of_mem_filter (List.mem_of_find?_eq_some hf)
    have hkey : e.1 = key := by
      have := List.find?_some hf
      exact of_decide_eq_true this
    rcases hWF e hmem with ⟨h1, h2⟩
    rw [apply_ite Prod.snd] at h
    dsimp only at h
    split at h
    · have hv : e.2.value = v := Option.some.inj h
      subst hv
      exact ⟨h1, hkey ▸ h2⟩
    · simp at h

theorem setCache_WF {cfg : RateLimitConfig} {st : RLState} {key : CacheKey}
    {v : List (String × AnalysisResult)} {now : ℚ}
    (hWF : WFCache st) (h1 : (alKeys v).Nodup) (h2 : (alKeys v).Perm (alKeys key)) :
    WFCache (setCache cfg st key v now) := by
  intro e he
  unfold setCache at he
  dsimp only at he
  split at he
  · rcases List.mem_map.mp he with ⟨orig, horig, heq⟩
    by_cases hk : orig.1 = key
    · rw [if_pos hk] at heq
      rw [← heq]
      exact ⟨h1, h2⟩
    · rw [if_neg hk] at heq
      rw [← heq]
      exact hWF orig horig
  · rcases List.mem_append.mp he with hm | hm
    · exact hWF e hm
    · rcases List.mem_singleton.mp hm with rfl
      exact ⟨h1, h2⟩

theorem alKeys_map_keyed {β γ : Type} (l : List (String × β)) (f : String × β → γ) :
    alKeys (l.map (fun p => (p.1, f p))) = alKeys l := by
  simp [alKeys, List.map_map]

theorem alKeys_canonKey_perm (b : Batch) : (alKeys (canonKey b)).Perm (alKeys b) :=
  (canonKey_perm b).map Prod.fst

theorem analyzeBatchGo_coverage {cfg : RateLimitConfig} {env : ℕ → OracleEvent}
    {pf : Batch → Bool}
    {recur : Batch → RLState → ℚ → Option (List (String × AnalysisResult) × RLState)}
    {batch : Batch} {st1 : RLState} {now : ℚ} {r : List (String × AnalysisResult) × RLState}
    (IH : ∀ b st r2, WFCache st → (alKeys b).Nodup → recur b st now = some r2 →
      (alKeys r2.1).Nodup ∧ (alKeys r2.1).Perm (alKeys b) ∧ WFCache r2.2)
    (hWF : WFCache st1) (hN : (alKeys batch).Nodup)
    (h : analyzeBatchGo cfg env pf recur batch st1 now = some r) :
    (alKeys r.1).Nodup ∧ (alKeys r.1).Perm (alKeys batch) ∧ WFCache r.2 := by
  unfold analyzeBatchGo at h
  dsimp only at h
  split at h
  · -- split-and-recurse path
    rcases h1 : recur (batch.take (batch.length / 2)) st1 now with _ | r1
    · rw [h1] at h
      simp at h
    · rw [h1] at h
      dsimp only at h
      rcases h2 : recur (batch.drop (batch.length / 2)) r1.2 now with _ | r2
      · rw [h2] at h
        simp at h
      · rw [h2] at h
        dsimp only at h
        cases h
        have hTake : (alKeys (batch.take (batch.length / 2))).Nodup := by
          rw [alKeys, List.map_take]
          exact List.Nodup.sublist (List.take_sublist _ _) hN
        have hDrop : (alKeys (batch.drop (batch.length / 2))).Nodup := by
          rw [alKeys, List.map_drop]
          exact List.Nodup.sublist (List.drop_sublist _ _) hN
        rcases IH _ _ _ hWF hTake h1 with ⟨n1, p1, w1⟩
        rcases IH _ _ _ w1 hDrop h2 with ⟨n2, p2, w2⟩
        have hdisj : (alKeys (batch.take (batch.length / 2))).Disjoint
            (alKeys (batch.drop (batch.length / 2))) := by
          rw [alKeys, alKeys, List.map_take, List.map_drop]
          exact List.disjoint_take_drop hN (le_refl _)
        have hfresh : ∀ p ∈ r2.1, alHasKey r1.1 p.1 = false := by
          intro p hp
          rw [alHasKey_eq_false_iff]
          intro hmem
          exact hdisj (p1.mem_iff.mp hmem)
            (p2.mem_iff.mp (List.mem_map_of_mem Prod.fst hp))
        rw [dictUpdate_append r2.1 r1.1 hfresh n2]
        have hkeys : alKeys (r1.1 ++ r2.1) = alKeys r1.1 ++ alKeys r2.1 :=
          alKeys_append _ _
        have hperm : (alKeys r1.1 ++ alKeys r2.1).Perm (alKeys batch) := by
          have := p1.append p2
          have happ : alKeys (batch.take (batch.length / 2)) ++
              alKeys (batch.drop (batch.length / 2)) = alKeys batch := by
            rw [alKeys, alKeys, alKeys, List.map_take, List.map_drop]
            exact List.take_append_drop _ _
          exact happ ▸ this
        refine ⟨?_, ?_, w2⟩
        · rw [hkeys, List.nodup_append]
          refine ⟨n1, n2, ?_⟩
          intro a ha1 ha2
          exact hdisj (p1.mem_iff.mp ha1) (p2.mem_iff.mp ha2)
        · rw [hkeys]
          exact hperm
  · -- dispatch path
    rcases hv : env st1.dispatchCount with _ | msg | items
    · rw [hv] at h
      dsimp only at h
      cases h
      refine ⟨?_, ?_, hWF⟩
      · rw [alKeys_map_keyed]
        exact hN
      · rw [alKeys_map_keyed]
    · rw [hv] at h
      dsimp only at h
      cases h
      refine ⟨?_, ?_, ?_⟩
      · rw [alKeys_map_keyed]
        exact hN
      · rw [alKeys_map_keyed]
      · intro e he
        exact hWF e he
    · rw [hv] at h
      dsimp only at h
      cases h
      rcases oracleToResults_keys items hN with ⟨n1, p1⟩
      refine ⟨n1, p1, ?_⟩
      exact @setCache_WF cfg _ _ _ _ (fun e he => hWF e he) n1
        (p1.trans (alKeys_canonKey_perm batch).symm)

theorem analyzeBatch_coverage (cfg : RateLimitConfig) (env : ℕ → OracleEvent)
    (pf : Batch → Bool) (api : Bool) :
    ∀ (fuel : ℕ) (batch : Batch) (st : RLState) (now : ℚ)
      (r : List (String × AnalysisResult) × RLState),
      WFCache st → (alKeys batch).Nodup →
      analyzeBatch cfg env pf api fuel batch st now = some r →
      (alKeys r.1).Nodup ∧ (alKeys r.1).Perm (alKeys batch) ∧ WFCache r.2 := by
  intro fuel
  induction fuel with
  | zero =>
    intro batch st now r _ _ h
    cases h
  | succ fuel ih =>
    intro batch st now r hWF hN h
    unfold analyzeBatch at h
    dsimp only at h
    by_cases hapi : api = false
    · rw [if_pos hapi] at h
      cases h
      refine ⟨?_, ?_, hWF⟩
      · rw [alKeys_map_keyed]
        exact hN
      · rw [alKeys_map_keyed]
    · rw [if_neg hapi] at h
      rcases hg2 : (getCache cfg st (canonKey batch) now).2 with _ | v
      · rw [hg2] at h
        dsimp only at h
        refine analyzeBatchGo_coverage (fun b st2 r2 => ih b st2 now r2) ?_ hN h
        rw [getCache_fst]
        exact WFCache_clean hWF
      · rw [hg2] at h
        dsimp only at h
        by_cases hv : v = []
        · rw [if_pos hv] at h
          dsimp only at h
          refine analyzeBatchGo_coverage (fun b st2 r2 => ih b st2 now r2) ?_ hN h
          rw [getCache_fst]
          exact WFCache_clean hWF
        · rw [if_neg hv] at h
          dsimp only at h
          cases h
          rcases getCache_val_WF hWF hg2 with ⟨n1, p1⟩
          refine ⟨n1, p1.trans (alKeys_canonKey_perm batch), ?_⟩
          rw [getCache_fst]
          exact WFCache_clean hWF

theorem processChunks_coverage (cfg : RateLimitConfig) (env : ℕ → OracleEvent)
    (pf : Batch → Bool) (api : Bool) (fuel : ℕ) (llmNeeded : Batch) (now : ℚ) :
    ∀ (bs : List Batch) (st : RLState) (r : List RcaEntry × RLState),
      WFCache st →
      (∀ b ∈ bs, (alKeys b).Nodup) →
      (∀ b ∈ bs, ∀ k ∈ alKeys b, alHasKey llmNeeded k = true) →
      processChunks cfg env pf api fuel llmNeeded bs st now = some r →
      (r.1.map RcaEntry.id).Perm ((bs.map alKeys).flatten) ∧ WFCache r.2 := by
  intro bs
  induction bs with
  | nil =>
    intro st r hWF _ _ h
    unfold processChunks at h
    cases h
    exact ⟨by simp, hWF⟩
  | cons b bs ih =>
    intro st r hWF hnod hsub h
    unfold processChunks at h
    rcases h1 : analyzeBatch cfg env pf api fuel b st now with _ | br
    · rw [h1] at h
      simp at h
    · rw [h1] at h
      dsimp only at h
      rcases analyzeBatch_coverage cfg env pf api fuel b st now br hWF
        (hnod b (List.mem_cons_self b bs)) h1 with ⟨bn, bp, bw⟩
      have hbrk : ∀ k ∈ alKeys br.1, alHasKey llmNeeded k = true := by
        intro k hk
        exact hsub b (List.mem_cons_self b bs) k (bp.mem_iff.mp hk)
      rcases batchEntries_spec llmNeeded br.1 hbrk with ⟨es, hes, hids, _⟩
      rw [hes] at h
      dsimp only at h
      rcases h2 : processChunks cfg env pf api fuel llmNeeded bs br.2 now with _ | rest
      · rw [h2] at h
        simp at h
      · rw [h2] at h
        dsimp only at h
        cases h
        rcases ih br.2 rest bw (fun b2 hb2 => hnod b2 (List.mem_cons_of_mem b hb2))
          (fun b2 hb2 => hsub b2 (List.mem_cons_of_mem b hb2)) h2 with ⟨rp, rw2⟩
        refine ⟨?_, rw2⟩
        rw [List.map_append, List.map_cons, List.flatten_cons, hids]
        exact (bp.append rp)

theorem count_filter_id (out : List RcaEntry) (d : String) :
    (out.filter (fun e => decide (e.id = d))).length = (out.map RcaEntry.id).count d := by
  induction out with
  | nil => simp
  | cons e es ih =>
    by_cases h : e.id = d
    · simp [List.count_cons, h, ih]
    · simp [List.count_cons, h, ih]

/-- C1.  Total coverage: for every alarm map with distinct device ids and
every well-formed limiter state, whenever `infer_root_cause` returns a
list (it returns for every path that does not hit the unbounded split
recursion of C9), that list carries exactly one entry per input device
id: its multiset of ids is a permutation of the input key set, hence each
input device appears exactly once and no other id appears.  This is
proved for every oracle behaviour `env` (including responses that omit
devices), every prompt-size behaviour, both credential modes and every
starting cache. -/
theorem c1_total_coverage (cfg : RateLimitConfig) (env : ℕ → OracleEvent)
    (pf : Batch → Bool) (api : Bool) (sanitize : String → String) (topo : Topology)
    (fuel : ℕ) (msgMap : Batch) (st : RLState) (now : ℚ)
    (r : List RcaEntry × RLState)
    (hN : (alKeys msgMap).Nodup) (hWF : WFCache st)
    (h : inferRootCause cfg env pf api sanitize topo fuel msgMap st now = some r) :
    (r.1.map RcaEntry.id).Perm (alKeys msgMap) ∧
      ∀ d ∈ alKeys msgMap, (r.1.filter (fun e => decide (e.id = d))).length = 1 := by
  have main : (r.1.map RcaEntry.id).Perm (alKeys msgMap) := by
    unfold inferRootCause at h
    by_cases hemp : msgMap.isEmpty
    · rw [if_pos hemp] at h
      cases h
      rcases List.isEmpty_iff.mp hemp with rfl
      simp [alKeys]
    · rw [if_neg hemp] at h
      dsimp only at h
      rcases h2 : processChunks cfg env pf api fuel (classifyLocal sanitize topo msgMap).2
          (chunks5 (classifyLocal sanitize topo msgMap).2) st now with _ | rest
      · rw [h2] at h
        simp at h
      · rw [h2] at h
        dsimp only at h
        cases h
        have hllmN : (alKeys (classifyLocal sanitize topo msgMap).2).Nodup :=
          List.Nodup.sublist (classifyLocal_llm_keys_sublist sanitize topo msgMap) hN
        have hcnod : ∀ b ∈ chunks5 (classifyLocal sanitize topo msgMap).2,
            (alKeys b).Nodup := by
          intro b hb
          exact List.Nodup.sublist ((chunks5_sublist hb).map Prod.fst) hllmN
        have hchas : ∀ b ∈ chunks5 (classifyLocal sanitize topo msgMap).2,
            ∀ k ∈ alKeys b, alHasKey (classifyLocal sanitize topo msgMap).2 k = true := by
          intro b hb k hk
          rw [alHasKey_iff_mem]
          exact ((chunks5_sublist hb).map Prod.fst).mem hk
        rcases processChunks_coverage cfg env pf api fuel
          (classifyLocal sanitize topo msgMap).2 now
          (chunks5 (classifyLocal sanitize topo msgMap).2) st rest hWF hcnod hchas h2
          with ⟨rp, _⟩
        have hflat : (((chunks5 (classifyLocal sanitize topo msgMap).2).map alKeys).flatten)
            = alKeys (classifyLocal sanitize topo msgMap).2 := by
          show (((chunks5 (classifyLocal sanitize topo msgMap).2).map
            (List.map Prod.fst)).flatten) = _
          rw [← List.map_flatten, chunks5_flatten]
          rfl
        rw [hflat] at rp
        have hsort := (sortProbDesc_perm
          ((classifyLocal sanitize topo msgMap).1 ++ rest.1)).map RcaEntry.id
        refine hsort.trans ?_
        rw [List.map_append]
        exact ((List.Perm.append_left _ rp).trans
          (classifyLocal_keys_perm sanitize topo msgMap))
  refine ⟨main, ?_⟩
  intro d hd
  rw [count_filter_id, main.count_eq]
  exact List.count_eq_one_of_mem hN hd

/-- Witness for C1 at a concrete input: one device `"a"` reporting
`"Device Down"`, resolved locally; the theorem's hypotheses are
discharged at this input. -/
theorem c1_total_coverage_witness :
    (([(⟨"a", "Device Down", mkRat 9 10, "Hardware/Physical", 1,
        "Device is completely down (local safety rule).", none, []⟩ : RcaEntry)].map
          RcaEntry.id).Perm (alKeys [("a", ["Device Down"])])) ∧
      ∀ d ∈ alKeys [("a", ["Device Down"])],
        (([(⟨"a", "Device Down", mkRat 9 10, "Hardware/Physical", 1,
          "Device is completely down (local safety rule).", none, []⟩ : RcaEntry)]).filter
            (fun e => decide (e.id = d))).length = 1 :=
  c1_total_coverage {} (fun _ => .timeout) (fun _ => true) false (fun s => s) [] 1
    [("a", ["Device Down"])] {} 0
    ([(⟨"a", "Device Down", mkRat 9 10, "Hardware/Physical", 1,
      "Device is completely down (local safety rule).", none, []⟩ : RcaEntry)], {})
    (by decide) (fun e he => absurd he (List.not_mem_nil e)) rfl

/-! ### Helper lemmas: per-entry shape of LLM-path entries -/

theorem batchEntries_mem {llmNeeded : Batch} :
    ∀ {br : List (String × AnalysisResult)} {es : List RcaEntry},
      batchEntries llmNeeded br = some es →
      ∀ e ∈ es, ∃ a : AnalysisResult,
        e.prob = (statusProbTier a.status).1 ∧ e.tier = (statusProbTier a.status).2 ∧
        e.type = a.impact_type ∧ e.reason = a.reason := by
  intro br
  induction br with
  | nil =>
    intro es h e he
    unfold batchEntries at h
    cases h
    cases he
  | cons p ps ih =>
    intro es h e he
    unfold batchEntries at h
    rcases hl : alLookup llmNeeded p.1 with _ | messages
    · rw [hl] at h
      cases h
    · rw [hl] at h
      rcases hr : batchEntries llmNeeded ps with _ | rest
      · rw [hr] at h
        cases h
      · rw [hr] at h
        dsimp only at h
        cases h
        rcases List.mem_cons.mp he with rfl | he2
        · exact ⟨p.2, rfl, rfl, rfl, rfl⟩
        · exact ih hr e he2

theorem processChunks_mem {cfg : RateLimitConfig} {env : ℕ → OracleEvent}
    {pf : Batch → Bool} {api : Bool} {fuel : ℕ} {llmNeeded : Batch} {now : ℚ} :
    ∀ {bs : List Batch} {st : RLState} {r : List RcaEntry × RLState},
      processChunks cfg env pf api fuel llmNeeded bs st now = some r →
      ∀ e ∈ r.1, ∃ a : AnalysisResult,
        e.prob = (statusProbTier a.status).1 ∧ e.tier = (statusProbTier a.status).2 ∧
        e.type = a.impact_type ∧ e.reason = a.reason := by
  intro bs
  induction bs with
  | nil =>
    intro st r h e he
    unfold processChunks at h
    cases h
    cases he
  | cons b bs ih =>
    intro st r h e he
    unfold processChunks at h
    rcases h1 : analyzeBatch cfg env pf api fuel b st now with _ | br
    · rw [h1] at h
      simp at h
    · rw [h1] at h
      dsimp only at h
      rcases hes : batchEntries llmNeeded br.1 with _ | es
      · rw [hes] at h
        simp at h
      · rw [hes] at h
        dsimp only at h
        rcases h2 : processChunks cfg env pf api fuel llmNeeded bs br.2 now with _ | rest
        · rw [h2] at h
          simp at h
        · rw [h2] at h
          dsimp only at h
          cases h
          rcases List.mem_append.mp he with he2 | he2
          · exact batchEntries_mem hes e he2
          · exact ih h2 e he2

theorem classifyOne_tier {sanitize : String → String} {topo : Topology}
    {suspects : List (String × SuspectInfo)} {alarmed : Batch}
    {p : String × List String} {e : RcaEntry}
    (hsusp : alHasKey suspects p.1 = false)
    (h : classifyOne sanitize topo suspects alarmed p = .inl e) :
    e.tier = specTier e.prob := by
  unfold classifyOne at h
  dsimp only at h
  split at h
  · cases h
    show 3 = specTier (mkRat 4 10)
    decide
  · split at h
    · cases h
      show 3 = specTier (mkRat 2 10)
      decide
    · split at h
      · rename_i hcond
        exact absurd hcond (by simpa [alHasKey] using hsusp)
      · rcases hl : applyLocalRules sanitize topo p.1 p.2 with _ | lr
        · rw [hl] at h
          cases h
        · rw [hl] at h
          dsimp only at h
          cases h
          show (statusProbTier lr.status).2 = specTier (statusProbTier lr.status).1
          cases hst : lr.status <;> decide

/-- C4.  Probability-to-tier invariant: every entry `infer_root_cause`
ever emits satisfies the spec's fixed mapping `prob > 0.8 → tier 1`,
`prob > 0.6 → tier 2`, else tier 3 (`specTier`), for every oracle
behaviour, credential mode and cache.  (The only construction site that
would violate it, the silent-failure suspect entry at probability 0.8
with tier 1, is unreachable, which this proof establishes via
`suspects_hasKey_imp`.) -/
theorem c4_prob_tier_mapping (cfg : RateLimitConfig) (env : ℕ → OracleEvent)
    (pf : Batch → Bool) (api : Bool) (sanitize : String → String) (topo : Topology)
    (fuel : ℕ) (msgMap : Batch) (st : RLState) (now : ℚ)
    (r : List RcaEntry × RLState)
    (h : inferRootCause cfg env pf api sanitize topo fuel msgMap st now = some r) :
    ∀ e ∈ r.1, e.tier = specTier e.prob := by
  unfold inferRootCause at h
  by_cases hemp : msgMap.isEmpty
  · rw [if_pos hemp] at h
    cases h
    intro e he
    cases he
  · rw [if_neg hemp] at h
    dsimp only at h
    rcases h2 : processChunks cfg env pf api fuel (classifyLocal sanitize topo msgMap).2
        (chunks5 (classifyLocal sanitize topo msgMap).2) st now with _ | rest
    · rw [h2] at h
      simp at h
    · rw [h2] at h
      dsimp only at h
      cases h
      intro e he
      have he2 := (sortProbDesc_perm _).mem_iff.mp he
      rcases List.mem_append.mp he2 with he3 | he3
      · rcases List.mem_filterMap.mp he3 with ⟨p, hp, hcl⟩
        have hinl := Sum.getLeft?_eq_some_iff.mp hcl
        have hsusp : alHasKey (detectSilentFailures topo msgMap) p.1 = false := by
          by_cases hs : alHasKey (detectSilentFailures topo msgMap) p.1 = true
          · exact absurd (alHasKey_of_mem hp) (by rw [suspects_hasKey_imp hs]; simp)
          · exact Bool.eq_false_iff.mpr hs
        exact classifyOne_tier hsusp hinl
      · rcases processChunks_mem h2 e he3 with ⟨a, h1, h2a, _, _⟩
        rw [h1, h2a]
        cases hst : a.status <;> decide

/-- Witness for C4 at a concrete input: a fan failure resolved by local
rule 2 surfaces as probability 0.7, tier 2, matching the mapping. -/
theorem c4_prob_tier_mapping_witness :
    (⟨"b", "fan fail", mkRat 7 10, "Hardware/Degraded", 2,
      "Fan failure detected. Service likely continues but risk of thermal escalation (local safety rule).",
      none, []⟩ : RcaEntry).tier =
    specTier (⟨"b", "fan fail", mkRat 7 10, "Hardware/Degraded", 2,
      "Fan failure detected. Service likely continues but risk of thermal escalation (local safety rule).",
      none, []⟩ : RcaEntry).prob :=
  c4_prob_tier_mapping {} (fun _ => .timeout) (fun _ => true) false (fun s => s) [] 1
    [("b", ["fan fail"])] {} 0
    ([(⟨"b", "fan fail", mkRat 7 10, "Hardware/Degraded", 2,
      "Fan failure detected. Service likely continues but risk of thermal escalation (local safety rule).",
      none, []⟩ : RcaEntry)], {}) rfl
    (⟨"b", "fan fail", mkRat 7 10, "Hardware/Degraded", 2,
      "Fan failure detected. Service likely continues but risk of thermal escalation (local safety rule).",
      none, []⟩ : RcaEntry) (List.mem_singleton_self _)

/-- C3 amended.  The returned list is sorted by probability descending;
no further tie-breaking is performed (Python's stable sort keeps equal
probabilities in generation order). -/
theorem c3_sorted_by_prob_desc (cfg : RateLimitConfig) (env : ℕ → OracleEvent)
    (pf : Batch → Bool) (api : Bool) (sanitize : String → String) (topo : Topology)
    (fuel : ℕ) (msgMap : Batch) (st : RLState) (now : ℚ)
    (r : List RcaEntry × RLState)
    (h : inferRootCause cfg env pf api sanitize topo fuel msgMap st now = some r) :
    r.1.Pairwise (fun a b => b.prob ≤ a.prob) := by
  unfold inferRootCause at h
  by_cases hemp : msgMap.isEmpty
  · rw [if_pos hemp] at h
    cases h
    simp
  · rw [if_neg hemp] at h
    dsimp only at h
    rcases h2 : processChunks cfg env pf api fuel (classifyLocal sanitize topo msgMap).2
        (chunks5 (classifyLocal sanitize topo msgMap).2) st now with _ | rest
    · rw [h2] at h
      simp at h
    · rw [h2] at h
      dsimp only at h
      cases h
      exact sortProbDesc_sorted _

/-- Witness for the amended C3 at a concrete input: two equal-probability
fan-failure entries, descending-sorted output. -/
theorem c3_sorted_by_prob_desc_witness :
    ([(⟨"b", "fan fail", mkRat 7 10, "Hardware/Degraded", 2,
      "Fan failure detected. Service likely continues but risk of thermal escalation (local safety rule).",
      none, []⟩ : RcaEntry),
      (⟨"a", "fan fail", mkRat 7 10, "Hardware/Degraded", 2,
      "Fan failure detected. Service likely continues but risk of thermal escalation (local safety rule).",
      none, []⟩ : RcaEntry)]).Pairwise (fun a b => b.prob ≤ a.prob) :=
  c3_sorted_by_prob_desc {} (fun _ => .timeout) (fun _ => true) false (fun s => s) [] 1
    [("b", ["fan fail"]), ("a", ["fan fail"])] {} 0
    ([(⟨"b", "fan fail", mkRat 7 10, "Hardware/Degraded", 2,
      "Fan failure detected. Service likely continues but risk of thermal escalation (local safety rule).",
      none, []⟩ : RcaEntry),
      (⟨"a", "fan fail", mkRat 7 10, "Hardware/Degraded", 2,
      "Fan failure detected. Service likely continues but risk of thermal escalation (local safety rule).",
      none, []⟩ : RcaEntry)], {}) rfl

/-- C3 counterexample.  Two devices `"b"` then `"a"` (insertion order)
with identical evidence get identical probability 0.7 and tier 2; the
output keeps them in insertion order `b, a`, so the tie is *not* broken
by `device_id` lexicographically and the output violates the spec's
claimed ordering (`specSortedC3`). -/
theorem c3_counterexample :
    ((inferRootCause {} (fun _ => .timeout) (fun _ => true) false (fun s => s) [] 1
        [("b", ["fan fail"]), ("a", ["fan fail"])] {} 0).map
      (fun r => r.1.map (fun e => (e.id, e.prob, e.tier))) =
        some [("b", mkRat 7 10, 2), ("a", mkRat 7 10, 2)]) ∧
    ((inferRootCause {} (fun _ => .timeout) (fun _ => true) false (fun s => s) [] 1
        [("b", ["fan fail"]), ("a", ["fan fail"])] {} 0).map
      (fun r => decide (specSortedC3 r.1)) = some false) := by
  constructor
  · decide
  · decide

/-- Topology for the C2 scenario: parent `P` with children `C1`, `C2`. -/
def c2Topo : Topology :=
  [("P", {}), ("C1", { parent_id := some "P" }), ("C2", { parent_id := some "P" })]

/-- Alarm map for the C2 scenario: both children report connection loss,
the parent reports nothing. -/
def c2MsgMap : Batch := [("C1", ["Connection Lost"]), ("C2", ["Connection Lost"])]

/-- C2 (code bug).  On the spec's own scenario the silent-failure
heuristic flags parent `P` (2/2 affected children), and the children are
demoted to probability 0.4 / tier 3 as downstream symptoms — but the
output of `infer_root_cause` contains *no entry at all* for `P`: the
emitting branch iterates only alarmed devices, while
`_detect_silent_failures` only ever flags devices that are not alarmed
(`suspects_hasKey_imp`), so the parent-emission branch of the source
(lines 575-592) is unreachable. -/
theorem c2_silent_parent_never_emitted :
    ((detectSilentFailures c2Topo c2MsgMap).map Prod.fst = ["P"]) ∧
    ((alLookup (detectSilentFailures c2Topo c2MsgMap) "P").map
      (fun i => (i.evidence_count, i.total_children)) = some (2, 2)) ∧
    ((inferRootCause {} (fun _ => .timeout) (fun _ => true) false (fun s => s) c2Topo 1
        c2MsgMap {} 0).map
      (fun r => r.1.map (fun e => (e.id, e.prob, e.tier))) =
        some [("C1", mkRat 4 10, 3), ("C2", mkRat 4 10, 3)]) ∧
    ((inferRootCause {} (fun _ => .timeout) (fun _ => true) false (fun s => s) c2Topo 1
        c2MsgMap {} 0).map
      (fun r => r.1.all (fun e => !decide (e.id = "P"))) = some true) := by
  refine ⟨by decide, by decide, by decide, by decide⟩

/-- C8.  PSU rule: when the joined sanitized evidence matches no hard-fail
pattern but matches the single-(non-dual)-PSU-failure condition, the local
classifier returns WARNING / "Hardware/Redundancy" (confidence 0.9) for a
device with `psu_count ≥ 2`, surfaced by the pipeline as probability 0.7 /
tier 2, and CRITICAL / "Hardware/Physical" (confidence 0.9) for
`psu_count < 2`, surfaced as probability 0.9 / tier 1. -/
theorem c8_psu_rule (sanitize : String → String) (topo : Topology)
    (device_id : String) (alerts : List String)
    (hne : alerts ≠ [])
    (hnocrit : ∀ p ∈ criticalPatterns,
      containsSub (String.intercalate " " (alerts.map sanitize)) p.1 = false ∧
      containsSub (sLower (String.intercalate " " (alerts.map sanitize))) (sLower p.1) = false)
    (hpsu : psuSingleFail (sLower (String.intercalate " " (alerts.map sanitize))) = true) :
    (2 ≤ getPsuCount topo device_id 1 →
      applyLocalRules sanitize topo device_id alerts =
        some ⟨device_id, .WARNING,
          "Single PSU failure with redundancy (psu_count=" ++
            toString (getPsuCount topo device_id 1) ++ ") (local safety rule).",
          "Hardware/Redundancy", mkRat 9 10, false, true⟩ ∧
      statusProbTier .WARNING = (mkRat 7 10, 2)) ∧
    (getPsuCount topo device_id 1 < 2 →
      applyLocalRules sanitize topo device_id alerts =
        some ⟨device_id, .CRITICAL,
          "Single PSU failure without redundancy (psu_count=" ++
            toString (getPsuCount topo device_id 1) ++ ") (local safety rule).",
          "Hardware/Physical", mkRat 9 10, false, true⟩ ∧
      statusProbTier .CRITICAL = (mkRat 9 10, 1)) := by
  have hfind : criticalPatterns.find?
      (fun p => containsSub (String.intercalate " " (alerts.map sanitize)) p.1 ||
        containsSub (sLower (String.intercalate " " (alerts.map sanitize))) (sLower p.1)) =
      none := by
    rw [List.find?_eq_none]
    intro p hp
    rcases hnocrit p hp with ⟨h1, h2⟩
    simp [h1, h2]
  have hbody : applyLocalRules sanitize topo device_id alerts =
      (if 2 ≤ getPsuCount topo device_id 1 then
        some ⟨device_id, .WARNING,
          "Single PSU failure with redundancy (psu_count=" ++
            toString (getPsuCount topo device_id 1) ++ ") (local safety rule).",
          "Hardware/Redundancy", mkRat 9 10, false, true⟩
      else
        some ⟨device_id, .CRITICAL,
          "Single PSU failure without redundancy (psu_count=" ++
            toString (getPsuCount topo device_id 1) ++ ") (local safety rule).",
          "Hardware/Physical", mkRat 9 10, false, true⟩) := by
    unfold applyLocalRules
    rw [if_neg (by simp [List.isEmpty_iff, hne])]
    dsimp only
    rw [hfind]
    dsimp only
    rw [if_pos hpsu]
  constructor
  · intro h2
    rw [hbody, if_pos h2]
    exact ⟨rfl, rfl⟩
  · intro h2
    rw [hbody, if_neg (by exact not_le.mpr h2)]
    exact ⟨rfl, rfl⟩

/-- Witness for C8 at the spec's own example: `"Power Supply 1 Failed"`
on a device with `psu_count = 2` (WARNING branch) and on a device with
`psu_count = 1` (CRITICAL branch). -/
theorem c8_psu_rule_witness :
    (applyLocalRules (fun s => s) [("d", { hwPsuCount := some 2 })] "d"
        ["Power Supply 1 Failed"] =
      some ⟨"d", .WARNING,
        "Single PSU failure with redundancy (psu_count=" ++
          toString (getPsuCount [("d", { hwPsuCount := some 2 })] "d" 1) ++
            ") (local safety rule).",
        "Hardware/Redundancy", mkRat 9 10, false, true⟩ ∧
      statusProbTier .WARNING = (mkRat 7 10, 2)) ∧
    (applyLocalRules (fun s => s) [("d", { hwPsuCount := some 1 })] "d"
        ["Power Supply 1 Failed"] =
      some ⟨"d", .CRITICAL,
        "Single PSU failure without redundancy (psu_count=" ++
          toString (getPsuCount [("d", { hwPsuCount := some 1 })] "d" 1) ++
            ") (local safety rule).",
        "Hardware/Physical", mkRat 9 10, false, true⟩ ∧
      statusProbTier .CRITICAL = (mkRat 9 10, 1)) :=
  ⟨(c8_psu_rule (fun s => s) [("d", { hwPsuCount := some 2 })] "d"
      ["Power Supply 1 Failed"] (by decide) (by decide) (by decide)).1 (by decide),
   (c8_psu_rule (fun s => s) [("d", { hwPsuCount := some 1 })] "d"
      ["Power Supply 1 Failed"] (by decide) (by decide) (by decide)).2 (by decide)⟩

/-- Auxiliary for C10: once an instance exists, any further construction
returns it unchanged. -/
theorem constructAll_some (cs : List (Option RateLimitConfig)) :
    ∀ l : LimiterInstance, constructAll cs (some l) = some l := by
  induction cs with
  | nil => intro l; rfl
  | cons c cs ih =>
    intro l
    unfold constructAll
    exact ih l

/-- C10.  The `GlobalRateLimiter` is a process-wide singleton: a
construction with an existing instance returns that instance (so the
cache and request window are shared), and for any process-lifetime
sequence of constructor calls the instance in effect is the one built by
the first call — its `RateLimitConfig` (rpm, rpd, safety margin, cache
TTL) is the first call's argument (or the defaults), and every later
config argument is silently ignored. -/
theorem c10_singleton_config_freeze :
    (∀ (l : LimiterInstance) (cfg : Option RateLimitConfig),
      constructLimiter (some l) cfg = l) ∧
    (∀ (c : Option RateLimitConfig) (cs : List (Option RateLimitConfig)),
      constructAll (c :: cs) none = some (initLimiter c)) ∧
    (∀ c : Option RateLimitConfig,
      (initLimiter c).config = c.getD {} ∧ (initLimiter c).state = {}) := by
  refine ⟨fun l cfg => rfl, ?_, fun c => ⟨rfl, rfl⟩⟩
  intro c cs
  unfold constructAll
  exact constructAll_some cs (initLimiter c)

/-! ### Helper lemmas: the size-1 split recursion never terminates (C9) -/

theorem find?_none_sublist {α : Type} {p : α → Bool} {l l2 : List α}
    (hsub : l2.Sublist l) (h : l.find? p = none) : l2.find? p = none := by
  rw [List.find?_eq_none] at h ⊢
  intro x hx
  exact h x (List.Sublist.mem hx hsub)

theorem find?_clean_none {cfg : RateLimitConfig} {st : RLState} {now : ℚ} {k : CacheKey}
    (h : st.cache.find? (fun e => e.1 = k) = none) :
    (cleanExpiredCache cfg st now).cache.find? (fun e => e.1 = k) = none :=
  find?_none_sublist (List.filter_sublist st.cache) h

theorem getCache_none {cfg : RateLimitConfig} {st : RLState} {key : CacheKey} {now : ℚ}
    (h : st.cache.find? (fun e => e.1 = key) = none) :
    getCache cfg st key now = (cleanExpiredCache cfg st now, none) := by
  unfold getCache
  dsimp only
  rw [find?_clean_none h]

theorem find?_setCache_none {cfg : RateLimitConfig} {st : RLState} {key : CacheKey}
    {v : List (String × AnalysisResult)} {now : ℚ} {k : CacheKey} (hk : k ≠ key)
    (h : st.cache.find? (fun e => e.1 = k) = none) :
    (setCache cfg st key v now).cache.find? (fun e => e.1 = k) = none := by
  unfold setCache
  dsimp only
  rw [List.find?_eq_none] at h ⊢
  split
  · intro x hx
    rcases List.mem_map.mp hx with ⟨orig, horig, heq⟩
    by_cases ho : orig.1 = key
    · rw [if_pos ho] at heq
      rw [← heq]
      simp
      exact fun hc => hk hc.symm
    · rw [if_neg ho] at heq
      rw [← heq]
      exact h orig horig
  · intro x hx
    rcases List.mem_append.mp hx with hm | hm
    · exact h x hm
    · rcases List.mem_singleton.mp hm with rfl
      simp
      exact fun hc => hk hc.symm

theorem analyzeBatch_nil_preserves_none (cfg : RateLimitConfig) (env : ℕ → OracleEvent)
    (pf : Batch → Bool) :
    ∀ (fuel : ℕ) (st : RLState) (now : ℚ) (r : List (String × AnalysisResult) × RLState)
      (k : CacheKey), k ≠ [] →
      analyzeBatch cfg env pf true fuel [] st now = some r →
      st.cache.find? (fun e => e.1 = k) = none →
      r.2.cache.find? (fun e => e.1 = k) = none := by
  intro fuel
  induction fuel with
  | zero =>
    intro st now r k _ h _
    cases h
  | succ fuel ih =>
    intro st now r k hk h hnone
    unfold analyzeBatch at h
    rw [if_neg (by simp)] at h
    dsimp only at h
    have goCase :
        analyzeBatchGo cfg env pf (analyzeBatch cfg env pf true fuel) []
          (getCache cfg st (canonKey []) now).1 now = some r →
        r.2.cache.find? (fun e => e.1 = k) = none := by
      intro hgo
      rw [getCache_fst] at hgo
      unfold analyzeBatchGo at hgo
      dsimp only at hgo
      split at hgo
      · rcases h1 : analyzeBatch cfg env pf true fuel
            (List.take (([] : Batch).length / 2) ([] : Batch))
            (cleanExpiredCache cfg st now) now with _ | r1
        · rw [h1] at hgo
          simp at hgo
        · rw [h1] at hgo
          dsimp only at hgo
          rcases h2 : analyzeBatch cfg env pf true fuel
              (List.drop (([] : Batch).length / 2) ([] : Batch)) r1.2 now with _ | r2
          · rw [h2] at hgo
            simp at hgo
          · rw [h2] at hgo
            dsimp only at hgo
            cases hgo
            refine ih r1.2 now r2 k hk h2 ?_
            exact ih (cleanExpiredCache cfg st now) now r1 k hk h1 (find?_clean_none hnone)
      · rcases hv : env (cleanExpiredCache cfg st now).dispatchCount with _ | msg | items
        · rw [hv] at hgo
          dsimp only at hgo
          cases hgo
          exact find?_clean_none hnone
        · rw [hv] at hgo
          dsimp only at hgo
          cases hgo
          exact find?_clean_none hnone
        · rw [hv] at hgo
          dsimp only at hgo
          cases hgo
          exact @find?_setCache_none cfg _ _ _ _ _ hk (find?_clean_none hnone)
    rcases hg : (getCache cfg st (canonKey []) now).2 with _ | v
    · rw [hg] at h
      dsimp only at h
      exact goCase h
    · rw [hg] at h
      dsimp only at h
      by_cases hv : v = []
      · rw [if_pos hv] at h
        dsimp only at h
        exact goCase h
      · rw [if_neg hv] at h
        dsimp only at h
        cases h
        rw [getCache_fst]
        exact find?_clean_none hnone

/-- C9 (code bug).  When a single-device batch's prompt exceeds the input
ceiling, `_analyze_batch_with_llm` never terminates: the size-1 batch is
split into the empty batch and the very same size-1 batch, and the
recursion unwinds forever (Python dies with `RecursionError`).  Formally:
for every fuel bound the fuelled model returns `none`, for every oracle
behaviour, every state whose cache holds no entry for the batch, and
every prompt-size behaviour that rejects the singleton. -/
theorem c9_split_nontermination (cfg : RateLimitConfig) (env : ℕ → OracleEvent)
    (pf : Batch → Bool) (d : String) (msgs : List String) (now : ℚ)
    (hpf : pf [(d, msgs)] = false) :
    ∀ (fuel : ℕ) (st : RLState),
      st.cache.find? (fun e => e.1 = canonKey [(d, msgs)]) = none →
      analyzeBatch cfg env pf true fuel [(d, msgs)] st now = none := by
  intro fuel
  induction fuel with
  | zero =>
    intro st _
    rfl
  | succ fuel ih =>
    intro st hnone
    unfold analyzeBatch
    rw [if_neg (by simp)]
    dsimp only
    rw [getCache_none hnone]
    dsimp only
    unfold analyzeBatchGo
    rw [if_pos (by rw [hpf])]
    dsimp only
    rw [show List.length [(d, msgs)] / 2 = 0 from by norm_num]
    rw [List.take_zero, List.drop_zero]
    rcases h1 : analyzeBatch cfg env pf true fuel []
        (cleanExpiredCache cfg st now) now with _ | r1
    · rfl
    · dsimp only
      have hr1 : r1.2.cache.find? (fun e => e.1 = canonKey [(d, msgs)]) = none :=
        analyzeBatch_nil_preserves_none cfg env pf fuel
          (cleanExpiredCache cfg st now) now r1 (canonKey [(d, msgs)])
          (fun hc => List.noConfusion hc) h1 (find?_clean_none hnone)
      rw [ih r1.2 hr1]

/-- Witness for C9 at a concrete input: a single-device batch that the
size check rejects exhausts any fuel (here 1000) without returning. -/
theorem c9_split_nontermination_witness :
    analyzeBatch {} (fun _ => .ok []) (fun b => decide (2 ≤ b.length)) true 1000
      [("dev1", ["x"])] {} 0 = none :=
  c9_split_nontermination {} (fun _ => .ok []) (fun b => decide (2 ≤ b.length))
    "dev1" ["x"] 0 (by decide) 1000 {} rfl

/-! ### Helper lemmas: rate-limit window bound (C5) -/

theorem pruneTimes_sublist (now : ℚ) (ts : List ℚ) : (pruneTimes now ts).Sublist ts := by
  induction ts with
  | nil => simp [pruneTimes]
  | cons t ts ih =>
    unfold pruneTimes
    by_cases h : now - t > 60
    · rw [if_pos h]
      exact ih.trans (List.sublist_cons_self t ts)
    · rw [if_neg h]

theorem inWindowCount_sublist {l1 l2 : List ℚ} (h : l1.Sublist l2) (now : ℚ) :
    inWindowCount l1 now ≤ inWindowCount l2 now :=
  List.Sublist.length_le (h.filter _)

theorem inWindowCount_le_length (l : List ℚ) (now : ℚ) :
    inWindowCount l now ≤ l.length :=
  List.length_filter_le _ l

theorem inWindowCount_pruneTimes (now : ℚ) (ts : List ℚ) :
    inWindowCount ts now = inWindowCount (pruneTimes now ts) now := by
  induction ts with
  | nil => rfl
  | cons t ts ih =>
    unfold pruneTimes
    by_cases h : now - t > 60
    · rw [if_pos h]
      unfold inWindowCount
      rw [List.filter_cons_of_neg (by simp; linarith)]
      exact ih
    · rw [if_neg h]

theorem inWindowCount_append_one (l : List ℚ) (t now : ℚ) :
    inWindowCount (l ++ [t]) now ≤ inWindowCount l now + 1 := by
  unfold inWindowCount
  rw [List.filter_append, List.length_append]
  have : (List.filter (fun u => decide (now - u ≤ 60)) [t]).length ≤ 1 :=
    List.length_filter_le _ [t]
  omega

theorem checkDailyLimit_times (cfg : RateLimitConfig) (st : RLState) (now : ℚ) :
    (checkDailyLimit cfg st now).1.request_times = st.request_times := by
  unfold checkDailyLimit
  dsimp only
  split <;> rfl

theorem effMinuteLimit_nonneg {cfg : RateLimitConfig} (hm : 0 ≤ cfg.safety_margin) :
    0 ≤ effMinuteLimit cfg := by
  unfold effMinuteLimit pyInt
  have hq : 0 ≤ (cfg.rpm : ℚ) * cfg.safety_margin := mul_nonneg (by positivity) hm
  rw [if_pos hq]
  exact Int.floor_nonneg.mpr hq

theorem slotCheck_true {cfg : RateLimitConfig} {st st2 : RLState} {now : ℚ}
    (h : slotCheck cfg st now = (st2, true)) :
    st2.request_times = pruneTimes now st.request_times ∧
    ((pruneTimes now st.request_times).length : ℤ) < effMinuteLimit cfg ∧
    ((st2.daily_count : ℤ) < effDailyLimit cfg) := by
  unfold slotCheck at h
  dsimp only at h
  split at h
  · rename_i hd
    unfold checkMinuteLimit at h
    dsimp only at h
    rw [checkDailyLimit_times] at h
    have hst2 : st2 = { (checkDailyLimit cfg st now).1 with
        request_times := pruneTimes now st.request_times } := by
      have := congrArg Prod.fst h
      exact this.symm
    have hlt : decide (((pruneTimes now st.request_times).length : ℤ) <
        effMinuteLimit cfg) = true := congrArg Prod.snd h
    refine ⟨by rw [hst2], of_decide_eq_true hlt, ?_⟩
    unfold checkDailyLimit at hd
    dsimp only at hd
    have hdc : st2.daily_count = (checkDailyLimit cfg st now).1.daily_count := by
      rw [hst2]
    rw [hdc]
    unfold checkDailyLimit
    dsimp only
    exact of_decide_eq_true hd
  · exact absurd (congrArg Prod.snd h) (by simp)

theorem recordRequest_times_sublist (cfg : RateLimitConfig) (st : RLState) (now : ℚ) :
    (recordRequest cfg st now).request_times.Sublist (st.request_times ++ [now]) := by
  unfold recordRequest
  dsimp only
  split
  · exact List.drop_sublist _ _
  · exact List.Sublist.refl _

theorem protoStep_window_bound (cfg : RateLimitConfig) (hm : 0 ≤ cfg.safety_margin)
    (st : RLState) (t : ℚ)
    (hpre : ∀ now : ℚ, ((inWindowCount st.request_times now : ℤ) ≤ effMinuteLimit cfg)) :
    ∀ now : ℚ, ((inWindowCount (protoStep cfg st t).request_times now : ℤ) ≤
      effMinuteLimit cfg) := by
  intro now
  unfold protoStep
  dsimp only
  rcases hc : slotCheck cfg st t with ⟨st2, granted⟩
  rcases granted with _ | _
  · -- not granted: the state's deque is a sublist of the original one
    dsimp only
    have hsub : st2.request_times.Sublist st.request_times := by
      unfold slotCheck at hc
      dsimp only at hc
      split at hc
      · unfold checkMinuteLimit at hc
        dsimp only at hc
        injection hc with hA hB
        rw [← hA]
        dsimp only
        rw [checkDailyLimit_times]
        exact pruneTimes_sublist t st.request_times
      · injection hc with hA hB
        rw [← hA, checkDailyLimit_times]
    calc (inWindowCount st2.request_times now : ℤ)
        ≤ (inWindowCount st.request_times now : ℤ) := by
          exact_mod_cast inWindowCount_sublist hsub now
      _ ≤ effMinuteLimit cfg := hpre now
  · -- granted: fewer than the limit remain in the pruned window, plus this one
    dsimp only
    rcases slotCheck_true hc with ⟨htimes, hlt, _⟩
    have hbase : (inWindowCount (st2.request_times ++ [t]) now : ℤ) ≤
        effMinuteLimit cfg := by
      have h1 := inWindowCount_append_one st2.request_times t now
      have h2 := inWindowCount_le_length st2.request_times now
      have h3 : (st2.request_times.length : ℤ) < effMinuteLimit cfg := by
        rw [htimes]
        exact hlt
      omega
    calc (inWindowCount (recordRequest cfg st2 t).request_times now : ℤ)
        ≤ (inWindowCount (st2.request_times ++ [t]) now : ℤ) := by
          exact_mod_cast inWindowCount_sublist (recordRequest_times_sublist cfg st2 t) now
      _ ≤ effMinuteLimit cfg := hbase

theorem runProto_window_bound (cfg : RateLimitConfig) (hm : 0 ≤ cfg.safety_margin) :
    ∀ (ts : List ℚ) (st : RLState),
      (∀ now : ℚ, ((inWindowCount st.request_times now : ℤ) ≤ effMinuteLimit cfg)) →
      ∀ now : ℚ, ((inWindowCount (runProto cfg ts st).request_times now : ℤ) ≤
        effMinuteLimit cfg) := by
  intro ts
  induction ts with
  | nil => intro st hpre now; exact hpre now
  | cons t ts ih =>
    intro st hpre now
    unfold runProto
    exact ih (protoStep cfg st t) (protoStep_window_bound cfg hm st t hpre) now

/-- C5.  Rate-limit bound.  First part: a check of `wait_for_slot` can
only return `True` when the number of recorded timestamps inside the
rolling 60-second window is strictly below `int(rpm * safety_margin)`
and the (possibly day-reset) daily counter is strictly below
`int(rpd * safety_margin)`.  Second part: under the sequential
wait-then-record protocol started from a fresh window, the in-window
record count never exceeds the effective limit, at any instant — with
`rpm = 30, safety_margin = 0.9` this is the claimed bound of 27. -/
theorem c5_rate_limit_bound :
    (∀ (cfg : RateLimitConfig) (st st2 : RLState) (now : ℚ),
      slotCheck cfg st now = (st2, true) →
      ((inWindowCount st.request_times now : ℤ) < effMinuteLimit cfg ∧
        (st2.daily_count : ℤ) < effDailyLimit cfg)) ∧
    (∀ (cfg : RateLimitConfig) (ts : List ℚ) (st0 : RLState),
      0 ≤ cfg.safety_margin → st0.request_times = [] →
      ∀ now : ℚ, ((inWindowCount (runProto cfg ts st0).request_times now : ℤ) ≤
        effMinuteLimit cfg)) := by
  constructor
  · intro cfg st st2 now h
    rcases slotCheck_true h with ⟨_, hlt, hd⟩
    refine ⟨?_, hd⟩
    calc (inWindowCount st.request_times now : ℤ)
        = (inWindowCount (pruneTimes now st.request_times) now : ℤ) := by
          exact_mod_cast inWindowCount_pruneTimes now st.request_times
      _ ≤ ((pruneTimes now st.request_times).length : ℤ) := by
          exact_mod_cast inWindowCount_le_length _ now
      _ < effMinuteLimit cfg := hlt
  · intro cfg ts st0 hm h0
    refine runProto_window_bound cfg hm ts st0 ?_
    intro now
    rw [h0]
    have : inWindowCount [] now = 0 := rfl
    rw [this]
    exact_mod_cast effMinuteLimit_nonneg hm

/-- Witness for C5 with the claim's numbers `rpm = 30`,
`safety_margin = 0.9`: a granting check on a fresh limiter satisfies both
strict bounds, and after 28 sequential wait-then-record rounds inside one
window the in-window count is still at most `int(30 * 0.9) = 27`. -/
theorem c5_rate_limit_bound_witness :
    ((inWindowCount (({} : RLState)).request_times 0 : ℤ) <
        effMinuteLimit { rpm := 30, safety_margin := mkRat 9 10 } ∧
      ((({} : RLState)).daily_count : ℤ) <
        effDailyLimit { rpm := 30, safety_margin := mkRat 9 10 }) ∧
    ((inWindowCount (runProto { rpm := 30, safety_margin := mkRat 9 10 }
        [0, 1, 2, 3, 4, 5, 6, 7, 8, 9, 10, 11, 12, 13, 14, 15, 16, 17, 18, 19,
          20, 21, 22, 23, 24, 25, 26, 27] {}).request_times 27 : ℤ) ≤
      effMinuteLimit { rpm := 30, safety_margin := mkRat 9 10 }) :=
  ⟨c5_rate_limit_bound.1 { rpm := 30, safety_margin := mkRat 9 10 } {} {} 0
      (by
        unfold slotCheck checkDailyLimit checkMinuteLimit pruneTimes
        norm_num [Rat.mkRat_eq_div, effDailyLimit, effMinuteLimit, pyInt]),
   c5_rate_limit_bound.2 { rpm := 30, safety_margin := mkRat 9 10 }
      [0, 1, 2, 3, 4, 5, 6, 7, 8, 9, 10, 11, 12, 13, 14, 15, 16, 17, 18, 19,
        20, 21, 22, 23, 24, 25, 26, 27] {} (by decide) rfl 27⟩

/-! ### Cache idempotence (C6) -/

/-- C6 amended.  Cache idempotence holds for a non-empty batch whose
prompt fits the input ceiling, when no entry for it is cached yet and the
first dispatch is granted a slot and parses successfully: the first call
invokes the oracle exactly once and caches its result; a second call with
the identical payload within `cache_ttl` returns the identical result map
straight from the cache — no further oracle invocation, no rate-limit
interaction (`request_times` untouched). -/
theorem c6_cache_idempotence (cfg : RateLimitConfig) (env : ℕ → OracleEvent)
    (pf : Batch → Bool) (batch : Batch) (st0 : RLState) (now1 now2 : ℚ)
    (items : List OracleItem) (f1 f2 : ℕ)
    (hmiss : st0.cache.find? (fun e => e.1 = canonKey batch) = none)
    (hfit : pf batch = true)
    (hne : batch ≠ [])
    (hev : env st0.dispatchCount = .ok items)
    (httl : now2 - now1 < cfg.cache_ttl) :
    ∃ (results : List (String × AnalysisResult)) (st4 st5 : RLState),
      analyzeBatch cfg env pf true (f1 + 1) batch st0 now1 = some (results, st4) ∧
      analyzeBatch cfg env pf true (f2 + 1) batch st4 now2 = some (results, st5) ∧
      results = oracleToResults batch items ∧
      st4.oracleCalls = st0.oracleCalls + 1 ∧
      st5.oracleCalls = st4.oracleCalls ∧
      st5.request_times = st4.request_times := by
  have hst1 :
      analyzeBatch cfg env pf true (f1 + 1) batch st0 now1 =
        some (oracleToResults batch items,
          setCache cfg
            { recordRequest cfg
                { cleanExpiredCache cfg st0 now1 with
                  dispatchCount := (cleanExpiredCache cfg st0 now1).dispatchCount + 1 }
                now1 with
              oracleCalls := (cleanExpiredCache cfg st0 now1).oracleCalls + 1 }
            (canonKey batch) (oracleToResults batch items) now1) := by
    unfold analyzeBatch
    rw [if_neg (by simp)]
    dsimp only
    rw [getCache_none hmiss]
    dsimp only
    unfold analyzeBatchGo
    rw [if_neg (by rw [hfit]; simp)]
    dsimp only
    rw [show (cleanExpiredCache cfg st0 now1).dispatchCount = st0.dispatchCount from rfl,
      hev]
  refine ⟨oracleToResults batch items,
    setCache cfg
      { recordRequest cfg
          { cleanExpiredCache cfg st0 now1 with
            dispatchCount := (cleanExpiredCache cfg st0 now1).dispatchCount + 1 }
          now1 with
        oracleCalls := (cleanExpiredCache cfg st0 now1).oracleCalls + 1 }
      (canonKey batch) (oracleToResults batch items) now1,
    cleanExpiredCache cfg
      (setCache cfg
      { recordRequest cfg
          { cleanExpiredCache cfg st0 now1 with
            dispatchCount := (cleanExpiredCache cfg st0 now1).dispatchCount + 1 }
          now1 with
        oracleCalls := (cleanExpiredCache cfg st0 now1).oracleCalls + 1 }
      (canonKey batch) (oracleToResults batch items) now1) now2,
    hst1, ?_, rfl, rfl, rfl, rfl⟩
  -- the second call hits the cache
  unfold analyzeBatch
  rw [if_neg (by simp)]
  dsimp only
  have hcache4 :
      (setCache cfg
      { recordRequest cfg
          { cleanExpiredCache cfg st0 now1 with
            dispatchCount := (cleanExpiredCache cfg st0 now1).dispatchCount + 1 }
          now1 with
        oracleCalls := (cleanExpiredCache cfg st0 now1).oracleCalls + 1 }
      (canonKey batch) (oracleToResults batch items) now1).cache =
      (cleanExpiredCache cfg st0 now1).cache ++
        [(canonKey batch, CacheEntry.mk (oracleToResults batch items) now1)] := by
    unfold setCache
    dsimp only
    rw [if_neg (by
      show ¬ ((List.find? (fun e => decide (e.1 = canonKey batch))
        (cleanExpiredCache cfg st0 now1).cache).isSome = true)
      rw [find?_clean_none hmiss]
      simp)]
    rfl
  have hnotexp : ¬ (now2 - now1 > cfg.cache_ttl) := by
    intro hgt
    exact absurd httl (not_lt_of_gt (by linarith))
  have hfind :
      ((cleanExpiredCache cfg
        (setCache cfg
      { recordRequest cfg
          { cleanExpiredCache cfg st0 now1 with
            dispatchCount := (cleanExpiredCache cfg st0 now1).dispatchCount + 1 }
          now1 with
        oracleCalls := (cleanExpiredCache cfg st0 now1).oracleCalls + 1 }
      (canonKey batch) (oracleToResults batch items) now1) now2).cache.find?
        (fun e => e.1 = canonKey batch)) =
      some (canonKey batch, CacheEntry.mk (oracleToResults batch items) now1) := by
    show (List.filter _ _).find? _ = _
    rw [hcache4, List.filter_append, List.find?_append]
    rw [find?_none_sublist (List.filter_sublist _) (find?_clean_none hmiss)]
    rw [List.filter_cons_of_pos (by
      simp only [Bool.not_eq_eq_eq_not, Bool.not_true, decide_eq_false_iff_not]
      exact hnotexp)]
    rw [List.find?_cons_of_pos _ (by simp)]
    rfl
  unfold getCache
  dsimp only
  rw [hfind]
  dsimp only
  rw [if_pos (by
    show now2 - now1 < cfg.cache_ttl
    exact httl)]
  dsimp only
  rw [if_neg (by
    show ¬ (oracleToResults batch items = [])
    exact oracleToResults_ne_nil items hne)]

/-- Witness for the amended C6 at a concrete input: a fresh limiter, a
one-device batch, an immediately-granted successful oracle call, and a
repeat of the identical payload at the same instant. -/
theorem c6_cache_idempotence_witness :
    ∃ (results : List (String × AnalysisResult)) (st4 st5 : RLState),
      analyzeBatch {} (fun _ => .ok []) (fun _ => true) true (0 + 1)
        [("d1", ["x"])] {} 0 = some (results, st4) ∧
      analyzeBatch {} (fun _ => .ok []) (fun _ => true) true (0 + 1)
        [("d1", ["x"])] st4 0 = some (results, st5) ∧
      results = oracleToResults [("d1", ["x"])] [] ∧
      st4.oracleCalls = ({} : RLState).oracleCalls + 1 ∧
      st5.oracleCalls = st4.oracleCalls ∧
      st5.request_times = st4.request_times :=
  c6_cache_idempotence {} (fun _ => .ok []) (fun _ => true) [("d1", ["x"])] {} 0 0
    [] 0 0 rfl rfl (fun h => List.noConfusion h) rfl (by norm_num)

/-- C6 counterexample.  The claim as stated fails when the first oracle
invocation raises: nothing is cached on the failure path, so a second
call with the identical payload 0 seconds later (well within the default
TTL of 3600) dispatches the oracle again — the two calls return identical
degraded maps but the oracle is invoked twice, not at most once. -/
theorem c6_counterexample :
    (((analyzeBatch {} (fun _ => .fail "boom") (fun _ => true) true 1
          [("d1", ["x"])] {} 0).bind
      (fun r1 => (analyzeBatch {} (fun _ => .fail "boom") (fun _ => true) true 1
          [("d1", ["x"])] r1.2 0).map
        (fun r2 => (decide (r1.1 = r2.1), r2.2.oracleCalls)))) = some (true, 2)) ∧
    ¬ ((2 : ℕ) ≤ 1) := by
  refine ⟨by decide, by decide⟩

/-! ### Degraded modes (C7) -/

theorem analyzeBatch_no_api (cfg : RateLimitConfig) (env : ℕ → OracleEvent)
    (pf : Batch → Bool) (fuel : ℕ) (b : Batch) (st : RLState) (now : ℚ) :
    analyzeBatch cfg env pf false (fuel + 1) b st now =
      some (b.map (fun p => (p.1, degradedNoApi p.1)), st) := by
  unfold analyzeBatch
  rw [if_pos rfl]

theorem analyzeBatch_env_failing (cfg : RateLimitConfig) (env : ℕ → OracleEvent)
    (pf : Batch → Bool) (fuel : ℕ) (b : Batch) (st : RLState) (now : ℚ)
    (hev : ∀ (n : ℕ) (items : List OracleItem), env n ≠ .ok items)
    (hpf : pf b = true) (hcache : st.cache = []) :
    ∃ (m : String) (st' : RLState),
      analyzeBatch cfg env pf true (fuel + 1) b st now =
        some (b.map (fun p => (p.1, degradedError m p.1)), st') ∧ st'.cache = [] := by
  have hnone : st.cache.find? (fun e => e.1 = canonKey b) = none := by
    rw [hcache]
    rfl
  have hclean : (cleanExpiredCache cfg st now).cache = [] := by
    show st.cache.filter _ = []
    rw [hcache]
    rfl
  unfold analyzeBatch
  rw [if_neg (by simp)]
  dsimp only
  rw [getCache_none hnone]
  dsimp only
  unfold analyzeBatchGo
  rw [if_neg (by rw [hpf]; simp)]
  dsimp only
  rcases hv : env (cleanExpiredCache cfg st now).dispatchCount with _ | msg | items
  · exact ⟨"Rate limit exceeded", _, rfl, hclean⟩
  · exact ⟨msg, _, rfl, hclean⟩
  · exact absurd hv (hev _ items)

theorem processChunks_degraded (cfg : RateLimitConfig) (env : ℕ → OracleEvent)
    (pf : Batch → Bool) (api : Bool) (fuel : ℕ) (llmNeeded : Batch) (now : ℚ)
    (COND : RLState → Prop) (Q : AnalysisResult → Prop)
    (hcall : ∀ (b : Batch) (st2 : RLState), COND st2 →
      ∃ (g : String → AnalysisResult) (st' : RLState),
        analyzeBatch cfg env pf api fuel b st2 now =
          some (b.map (fun p => (p.1, g p.1)), st') ∧ (∀ d, Q (g d)) ∧ COND st') :
    ∀ (bs : List Batch) (st : RLState), COND st →
      (∀ b ∈ bs, ∀ k ∈ alKeys b, alHasKey llmNeeded k = true) →
      ∃ (es : List RcaEntry) (st' : RLState),
        processChunks cfg env pf api fuel llmNeeded bs st now = some (es, st') ∧
        es.map RcaEntry.id = (bs.map alKeys).flatten ∧
        ∀ e ∈ es, ∃ a : AnalysisResult, Q a ∧
          e.prob = (statusProbTier a.status).1 ∧ e.tier = (statusProbTier a.status).2 ∧
          e.type = a.impact_type ∧ e.reason = a.reason := by
  intro bs
  induction bs with
  | nil =>
    intro st hc _
    exact ⟨[], st, rfl, rfl, fun e he => absurd he (List.not_mem_nil e)⟩
  | cons b bs ih =>
    intro st hc hsub
    rcases hcall b st hc with ⟨g, st2, hab, hQ, hc2⟩
    have hkeys : ∀ k ∈ alKeys (b.map (fun p => (p.1, g p.1))),
        alHasKey llmNeeded k = true := by
      intro k hk
      rw [alKeys_map_keyed] at hk
      exact hsub b (List.mem_cons_self b bs) k hk
    rcases batchEntries_spec llmNeeded (b.map (fun p => (p.1, g p.1))) hkeys
      with ⟨es1, hes1, hids1, hprops1⟩
    rcases ih st2 hc2 (fun b2 hb2 => hsub b2 (List.mem_cons_of_mem b hb2))
      with ⟨es2, st3, hrec, hids2, hprops2⟩
    refine ⟨es1 ++ es2, st3, ?_, ?_, ?_⟩
    · unfold processChunks
      rw [hab]
      dsimp only
      rw [hes1]
      dsimp only
      rw [hrec]
    · rw [List.map_append, hids1, alKeys_map_keyed, List.map_cons, List.flatten_cons,
        hids2]
    · intro e he
      rcases List.mem_append.mp he with he2 | he2
      · rcases hprops1 e he2 with ⟨a, ⟨p, hp, hpa, _⟩, h3, h4, h5, h6⟩
        rcases List.mem_map.mp hp with ⟨q, _, hq⟩
        refine ⟨a, ?_, h3, h4, h5, h6⟩
        rw [← hpa, ← hq]
        exact hQ q.1
      · exact hprops2 e he2

theorem infer_degraded_assembly (cfg : RateLimitConfig) (env : ℕ → OracleEvent)
    (pf : Batch → Bool) (api : Bool) (sanitize : String → String) (topo : Topology)
    (fuel : ℕ) (msgMap : Batch) (st : RLState) (now : ℚ)
    (COND : RLState → Prop) (Q : AnalysisResult → Prop)
    (hcall : ∀ (b : Batch) (st2 : RLState), COND st2 →
      ∃ (g : String → AnalysisResult) (st' : RLState),
        analyzeBatch cfg env pf api fuel b st2 now =
          some (b.map (fun p => (p.1, g p.1)), st') ∧ (∀ d, Q (g d)) ∧ COND st')
    (hc : COND st) :
    ∃ (out : List RcaEntry) (st' : RLState),
      inferRootCause cfg env pf api sanitize topo fuel msgMap st now = some (out, st') ∧
      ∀ d ∈ alKeys (classifyLocal sanitize topo msgMap).2,
        ∃ e ∈ out, e.id = d ∧ ∃ a : AnalysisResult, Q a ∧
          e.prob = (statusProbTier a.status).1 ∧ e.tier = (statusProbTier a.status).2 ∧
          e.type = a.impact_type ∧ e.reason = a.reason := by
  by_cases hemp : msgMap.isEmpty
  · refine ⟨[], st, ?_, ?_⟩
    · unfold inferRootCause
      rw [if_pos hemp]
    · rcases List.isEmpty_iff.mp hemp with rfl
      intro d hd
      exact absurd hd (List.not_mem_nil d)
  · have hsub : ∀ b ∈ chunks5 (classifyLocal sanitize topo msgMap).2,
        ∀ k ∈ alKeys b, alHasKey (classifyLocal sanitize topo msgMap).2 k = true := by
      intro b hb k hk
      rw [alHasKey_iff_mem]
      exact ((chunks5_sublist hb).map Prod.fst).mem hk
    rcases processChunks_degraded cfg env pf api fuel
      (classifyLocal sanitize topo msgMap).2 now COND Q hcall
      (chunks5 (classifyLocal sanitize topo msgMap).2) st hc hsub
      with ⟨es, st', hchunks, hids, hprops⟩
    refine ⟨sortProbDesc ((classifyLocal sanitize topo msgMap).1 ++ es), st', ?_, ?_⟩
    · unfold inferRootCause
      rw [if_neg hemp]
      dsimp only
      rw [hchunks]
    · intro d hd
      have hflat : ((chunks5 (classifyLocal sanitize topo msgMap).2).map alKeys).flatten
          = alKeys (classifyLocal sanitize topo msgMap).2 := by
        show (((chunks5 (classifyLocal sanitize topo msgMap).2).map
          (List.map Prod.fst)).flatten) = _
        rw [← List.map_flatten, chunks5_flatten]
        rfl
      rw [hflat] at hids
      have hd2 : d ∈ es.map RcaEntry.id := by
        rw [hids]
        exact hd
      rcases List.mem_map.mp hd2 with ⟨e, he, hed⟩
      refine ⟨e, ?_, hed, hprops e he⟩
      exact (sortProbDesc_perm _).mem_iff.mpr (List.mem_append.mpr (Or.inr he))

/-- C7.  Degrade, never raise.  First part: with no oracle credential,
`_analyze_batch_with_llm` returns the fixed degraded verdict (WARNING,
confidence 0.3, "API key not configured. Manual analysis required.") for
every device without touching the limiter state — no wait, no call, no
cache.  Second part: in that mode `infer_root_cause` returns its ranked
list and every oracle-needing device carries the degraded verdict at
probability 0.7, tier 2.  Third part: with a credential but an oracle
that only fails or times out (every dispatch event is a failure), and
prompts within the ceiling, `infer_root_cause` still returns its ranked
list, every oracle-needing device receiving the degraded WARNING /
`AI_ERROR` verdict instead of an exception propagating. -/
theorem c7_degrade_never_raise :
    (∀ (cfg : RateLimitConfig) (env : ℕ → OracleEvent) (pf : Batch → Bool)
      (fuel : ℕ) (b : Batch) (st : RLState) (now : ℚ),
      analyzeBatch cfg env pf false (fuel + 1) b st now =
        some (b.map (fun p => (p.1, degradedNoApi p.1)), st)) ∧
    (∀ (cfg : RateLimitConfig) (env : ℕ → OracleEvent) (pf : Batch → Bool)
      (sanitize : String → String) (topo : Topology) (fuel : ℕ) (msgMap : Batch)
      (st : RLState) (now : ℚ),
      ∃ (out : List RcaEntry) (st' : RLState),
        inferRootCause cfg env pf false sanitize topo (fuel + 1) msgMap st now =
          some (out, st') ∧
        ∀ d ∈ alKeys (classifyLocal sanitize topo msgMap).2,
          ∃ e ∈ out, e.id = d ∧ e.prob = mkRat 7 10 ∧ e.tier = 2 ∧
            e.reason = "API key not configured. Manual analysis required.") ∧
    (∀ (cfg : RateLimitConfig) (env : ℕ → OracleEvent) (sanitize : String → String)
      (topo : Topology) (fuel : ℕ) (msgMap : Batch) (st : RLState) (now : ℚ),
      (∀ (n : ℕ) (items : List OracleItem), env n ≠ .ok items) → st.cache = [] →
      ∃ (out : List RcaEntry) (st' : RLState),
        inferRootCause cfg env (fun _ => true) true sanitize topo (fuel + 1) msgMap
          st now = some (out, st') ∧
        ∀ d ∈ alKeys (classifyLocal sanitize topo msgMap).2,
          ∃ e ∈ out, e.id = d ∧ e.prob = mkRat 7 10 ∧ e.tier = 2 ∧
            e.type = "AI_ERROR") := by
  refine ⟨analyzeBatch_no_api, ?_, ?_⟩
  · intro cfg env pf sanitize topo fuel msgMap st now
    rcases infer_degraded_assembly cfg env pf false sanitize topo (fuel + 1) msgMap
      st now (fun _ => True)
      (fun a => a.status = .WARNING ∧
        a.reason = "API key not configured. Manual analysis required.")
      (fun b st2 _ => ⟨degradedNoApi, st2, analyzeBatch_no_api cfg env pf fuel b st2 now,
        fun d => ⟨rfl, rfl⟩, trivial⟩)
      trivial with ⟨out, st', hinf, hall⟩
    refine ⟨out, st', hinf, ?_⟩
    intro d hd
    rcases hall d hd with ⟨e, he, hed, a, ⟨has, har⟩, h3, h4, _, h6⟩
    refine ⟨e, he, hed, ?_, ?_, ?_⟩
    · rw [h3, has]
      rfl
    · rw [h4, has]
      rfl
    · rw [h6, har]
  · intro cfg env sanitize topo fuel msgMap st now hev hcache
    rcases infer_degraded_assembly cfg env (fun _ => true) true sanitize topo (fuel + 1)
      msgMap st now (fun st2 => st2.cache = [])
      (fun a => a.status = .WARNING ∧ a.impact_type = "AI_ERROR")
      (fun b st2 hc2 => by
        rcases analyzeBatch_env_failing cfg env (fun _ => true) fuel b st2 now hev rfl
          hc2 with ⟨m, st', hab, hc'⟩
        exact ⟨degradedError m, st', hab, fun d => ⟨rfl, rfl⟩, hc'⟩)
      hcache with ⟨out, st', hinf, hall⟩
    refine ⟨out, st', hinf, ?_⟩
    intro d hd
    rcases hall d hd with ⟨e, he, hed, a, ⟨has, hai⟩, h3, h4, h5, _⟩
    refine ⟨e, he, hed, ?_, ?_, ?_⟩
    · rw [h3, has]
      rfl
    · rw [h4, has]
      rfl
    · rw [h5, hai]

/-- Witness for C7 at a concrete input: an alert no local rule matches,
a configured credential, and an oracle whose every dispatch times out —
the inference still returns, with the degraded `AI_ERROR` verdict. -/
theorem c7_degrade_never_raise_witness :
    ∃ (out : List RcaEntry) (st' : RLState),
      inferRootCause {} (fun _ => .timeout) (fun _ => true) true (fun s => s) []
        (0 + 1) [("x", ["weird alert"])] {} 0 = some (out, st') ∧
      ∀ d ∈ alKeys (classifyLocal (fun s => s) [] [("x", ["weird alert"])]).2,
        ∃ e ∈ out, e.id = d ∧ e.prob = mkRat 7 10 ∧ e.tier = 2 ∧
          e.type = "AI_ERROR" :=
  c7_degrade_never_raise.2.2 {} (fun _ => .timeout) (fun s => s) [] 0
    [("x", ["weird alert"])] {} 0
    (fun n items h => OracleEvent.noConfusion h) rfl
